import Mathlib

/-!
# Verification of the sbom-tools core (create / merge / diff)

Shallow embedding of the SBOM tool core written in TypeScript:
`src/tools/create.ts`, `src/tools/merge.ts` (whose source appears
concatenated at the end of `tests/unit/tools.test.ts`), `src/tools/diff.ts`
and the shared types of `src/types.ts`.

Modelling conventions:
* JavaScript `Map` (insertion ordered) is an association list
  `List (String × α)`; `Map.has/get/set` are `mapHas/mapGet/mapSet`.
* Optional wire fields (`field?: T`) are `Option T`; an absent field is
  `none`.
* JavaScript truthiness on optional strings (`if (s)`) treats both
  `undefined` and `""` as false; `optTruthy` mirrors this.
* The non-deterministic effects `new Date().toISOString()` and `uuidv4()`
  are injected as explicit `ts`/`uuid` parameters; `getConfig()` is the
  explicit `cfg` parameter.
* `String.prototype.localeCompare` in the diff sort is modelled as
  code-point (lexicographic) string comparison, with which it agrees on
  the ASCII package names of this domain.
* `Array.prototype.sort` (stable since ES2019) is `List.insertionSort`
  (a stable sort) with that comparator.
-/

/-- JS truthiness for an optional string: `undefined` and `""` are falsy.
`optTruthy x` is `some s` exactly when `if (x)` would take the then-branch
with `x === s`. -/
def optTruthy : Option String → Option String
  | none => none
  | some s => if s == "" then none else some s

/-- JS truthiness as a boolean, for conditions of the form `if (x)`. -/
def strTruthy (x : Option String) : Bool :=
  (optTruthy x).isSome

/-- JS `a || b` on a possibly-absent string `a` and a fallback `b`
(empty strings are falsy and fall through). -/
def jsOr (a : Option String) (b : String) : String :=
  match optTruthy a with
  | some s => s
  | none => b

/-- Decimal digits, most significant first, structurally recursive on a
fuel bound (any `fuel > n` computes the digits of `n`). -/
def decimalDigitsAux (fuel n : Nat) : List Char :=
  match fuel with
  | 0 => []
  | fuel + 1 =>
    if n < 10 then [Char.ofNat (48 + n)]
    else decimalDigitsAux fuel (n / 10) ++ [Char.ofNat (48 + n % 10)]

/-- Decimal digits of a natural number, most significant first; models the
rendering of a JS number index inside a template literal. -/
def decimalDigits (n : Nat) : List Char :=
  decimalDigitsAux (n + 1) n

/-- Decimal rendering of a natural number (`${index}` in a template literal). -/
def natToString (n : Nat) : String :=
  ⟨decimalDigits n⟩

/-- One hexadecimal digit, uppercase, as produced by `encodeURIComponent`. -/
def hexDigitChar (n : Nat) : Char :=
  if n < 10 then Char.ofNat (48 + n) else Char.ofNat (55 + n)

/-- Characters that `encodeURIComponent` leaves unescaped:
`A-Z a-z 0-9 - _ . ! ~ * ' ( )`. -/
def isUriUnreserved (c : Char) : Bool :=
  c.isAlphanum || c == '-' || c == '_' || c == '.' || c == '!' ||
    c == '~' || c == '*' || c == '\'' || c == '(' || c == ')'

/-- Percent-encoding of one byte, `%XX` with uppercase hex. -/
def percentEncodeByte (b : UInt8) : List Char :=
  ['%', hexDigitChar (b.toNat / 16), hexDigitChar (b.toNat % 16)]

/-- JS `encodeURIComponent`: unreserved characters are kept, every other
character is UTF-8 encoded and percent-escaped byte by byte. -/
def encodeURIComponent (s : String) : String :=
  ⟨s.data.foldr
    (fun c acc =>
      if isUriUnreserved c then c :: acc
      else ((String.mk [c]).toUTF8.toList.map percentEncodeByte).flatten ++ acc)
    []⟩

/-- ASCII decimal digit test. -/
def isAsciiDigit (c : Char) : Bool :=
  48 ≤ c.toNat && c.toNat ≤ 57

/-- The exact shape of a `Date.prototype.toISOString` result,
`YYYY-MM-DDTHH:MM:SS.mmmZ`; the ISO-8601 format the envelope invariant
talks about. -/
def isIso8601 (s : String) : Bool :=
  match s.data with
  | [y1, y2, y3, y4, '-', mo1, mo2, '-', d1, d2, 'T',
     h1, h2, ':', mi1, mi2, ':', s1, s2, '.', f1, f2, f3, 'Z'] =>
    [y1, y2, y3, y4, mo1, mo2, d1, d2, h1, h2, mi1, mi2, s1, s2, f1, f2, f3].all isAsciiDigit
  | _ => false

/-! ## The insertion-ordered map model of JS `Map` -/

/-- Model of `Map.has(k)`. -/
def mapHas {α : Type} (m : List (String × α)) (k : String) : Bool :=
  m.any (fun p => p.1 == k)

/-- Model of `Map.get(k)` (as an option; `undefined` is `none`). -/
def mapGet {α : Type} (m : List (String × α)) (k : String) : Option α :=
  (m.find? (fun p => p.1 == k)).map (fun p => p.2)

/-- Model of `Map.set(k, v)`: overwrites in place when the key is present (keeping
its position), appends otherwise. -/
def mapSet {α : Type} (m : List (String × α)) (k : String) (v : α) : List (String × α) :=
  if mapHas m k then m.map (fun p => if p.1 == k then (k, v) else p)
  else m ++ [(k, v)]

/-- Model of `Array.from(map.values())`. -/
def mapValues {α : Type} (m : List (String × α)) : List α :=
  m.map (fun p => p.2)

/-- The keys of the map, in insertion order. -/
def mapKeys {α : Type} (m : List (String × α)) : List String :=
  m.map (fun p => p.1)

/-- Model of `map.size`. -/
def mapSize {α : Type} (m : List (String × α)) : Nat :=
  m.length

/-- The loop `for (x of l) { const k = key x; if (!m.has(k)) m.set(k, val x) }`:
first occurrence per key wins. -/
def insertAbsentFold {α β : Type} (key : β → String) (val : β → α)
    (init : List (String × α)) (l : List β) : List (String × α) :=
  l.foldl (fun m x => if !(mapHas m (key x)) then mapSet m (key x) (val x) else m) init

/-- The loop `for (x of l) { m.set(key x, val x) }`: last occurrence per
key wins. -/
def setFold {α β : Type} (key : β → String) (val : β → α)
    (init : List (String × α)) (l : List β) : List (String × α) :=
  l.foldl (fun m x => mapSet m (key x) (val x)) init

/-! ## Data model (`src/types.ts`) -/

/-- Builder input (`Dependency`). -/
structure Dependency where
  ecosystem : String
  name : String
  version : String
  license : Option String := none
deriving DecidableEq

/-- Requested output format (`SbomFormat`). -/
inductive SbomFormat where
  | cyclonedx
  | spdx
deriving DecidableEq

/-- Model of `CycloneDxTool`. -/
structure CdxTool where
  vendor : Option String := none
  name : String
  version : Option String := none
deriving DecidableEq

/-- Model of `CycloneDxMetadata`. -/
structure CdxMetadata where
  timestamp : String
  tools : Option (List CdxTool) := none
deriving DecidableEq

/-- One entry of a CycloneDX component's `licenses` array,
`{ license: { id?, name? } }` (the `license` wrapper is flattened). -/
structure CdxLicenseEntry where
  id : Option String := none
  name : Option String := none
deriving DecidableEq

/-- Model of `CycloneDxComponent`; `bomRef` is the wire field `bom-ref`. -/
structure CycloneDxComponent where
  type : String
  name : String
  version : String
  purl : Option String := none
  licenses : Option (List CdxLicenseEntry) := none
  bomRef : Option String := none
deriving DecidableEq

/-- Model of `CycloneDxSbom`; `bomFormat` and `specVersion` are kept as plain
strings so that the runtime classification check `bomFormat === 'CycloneDX'`
is modelled faithfully. -/
structure CycloneDxSbom where
  bomFormat : String
  specVersion : String
  version : Nat
  serialNumber : Option String := none
  metadata : CdxMetadata
  components : List CycloneDxComponent
deriving DecidableEq

/-- One element of `SpdxPackage.externalRefs`. -/
structure SpdxExternalRef where
  referenceCategory : String
  referenceType : String
  referenceLocator : String
deriving DecidableEq

/-- Model of `SpdxPackage`. -/
structure SpdxPackage where
  name : String
  SPDXID : String
  downloadLocation : String
  versionInfo : String
  licenseConcluded : Option String := none
  licenseDeclared : Option String := none
  filesAnalyzed : Option Bool := none
  externalRefs : Option (List SpdxExternalRef) := none
deriving DecidableEq

/-- Model of `SpdxCreationInfo`. -/
structure SpdxCreationInfo where
  created : String
  creators : List String
deriving DecidableEq

/-- Model of `SpdxSbom`; `spdxVersion` is a plain string for the same reason as
`CycloneDxSbom.bomFormat`. -/
structure SpdxSbom where
  spdxVersion : String
  dataLicense : String
  SPDXID : String
  name : String
  documentNamespace : String
  creationInfo : SpdxCreationInfo
  packages : List SpdxPackage
deriving DecidableEq

/-- Model of `Sbom = CycloneDxSbom | SpdxSbom`. -/
inductive Sbom where
  | cdx (doc : CycloneDxSbom)
  | spdx (doc : SpdxSbom)
deriving DecidableEq

/-- Model of `isCycloneDxSbom`: `'bomFormat' in sbom && sbom.bomFormat === 'CycloneDX'`. -/
def isCycloneDxSbom : Sbom → Bool
  | .cdx d => d.bomFormat == "CycloneDX"
  | .spdx _ => false

/-- Model of `isSpdxSbom`: `'spdxVersion' in sbom && sbom.spdxVersion === 'SPDX-2.3'`. -/
def isSpdxSbom : Sbom → Bool
  | .cdx _ => false
  | .spdx d => d.spdxVersion == "SPDX-2.3"

/-- Model of `ErrorCode` (`src/types.ts`). -/
inductive ErrorCode where
  | INVALID_INPUT
  | UPSTREAM_ERROR
  | RATE_LIMITED
  | TIMEOUT
  | PARSE_ERROR
  | INTERNAL_ERROR
deriving DecidableEq

/-- The wire string of each error code. -/
def errorCodeName : ErrorCode → String
  | .INVALID_INPUT => "INVALID_INPUT"
  | .UPSTREAM_ERROR => "UPSTREAM_ERROR"
  | .RATE_LIMITED => "RATE_LIMITED"
  | .TIMEOUT => "TIMEOUT"
  | .PARSE_ERROR => "PARSE_ERROR"
  | .INTERNAL_ERROR => "INTERNAL_ERROR"

/-- The defined error-code set of `src/types.ts`. -/
def definedErrorCodes : List ErrorCode :=
  [.INVALID_INPUT, .UPSTREAM_ERROR, .RATE_LIMITED, .TIMEOUT, .PARSE_ERROR, .INTERNAL_ERROR]

/-- The `error` object of an `ErrorResponse`; `details` is always the
empty object in the core. -/
structure ErrorInfo where
  code : ErrorCode
  message : String
  details : List (String × String) := []
deriving DecidableEq

/-- Model of `ResponseMeta`; `pagination` is `some none` for a present
`{ next_cursor: null }`. -/
structure ResponseMeta where
  source : Option String := none
  retrieved_at : String
  pagination : Option (Option String) := none
  warnings : Option (List String) := none
deriving DecidableEq

/-- Model of `ApiResponse<T> = SuccessResponse<T> | ErrorResponse`; the failure
constructor structurally carries no `data` field. -/
inductive ApiResponse (α : Type) where
  | success (data : α) (meta : ResponseMeta)
  | failure (error : ErrorInfo) (meta : ResponseMeta)
deriving DecidableEq

/-- The `meta` block every success path builds. -/
def successMeta (ts : String) : ResponseMeta :=
  { source := some "sbom-tools", retrieved_at := ts,
    pagination := some none, warnings := some [] }

/-- The tool-metadata fields of `getConfig()` used by the core
(transport/server fields are out of scope). -/
structure Config where
  SERVER_VERSION : String := "1.0.0"
  TOOL_VENDOR : String := "Dedalus Labs"
  TOOL_NAME : String := "sbom-tools"
deriving DecidableEq

/-! ## Builder (`src/tools/create.ts`) -/

/-- Model of `generatePurl`: `pkg:{ecosystem.toLowerCase()}/{enc(name)}@{enc(version)}`. -/
def generatePurl (dep : Dependency) : String :=
  "pkg:" ++ dep.ecosystem.toLower ++ "/" ++ encodeURIComponent dep.name
    ++ "@" ++ encodeURIComponent dep.version

/-- Model of `sanitizeSpdxId`: replace every character outside `[a-zA-Z0-9.-]` with `-`. -/
def sanitizeSpdxId (input : String) : String :=
  ⟨input.data.map (fun c => if c.isAlphanum || c == '.' || c == '-' then c else '-')⟩

/-- One component of `createCycloneDxSbom`'s `deps.map` callback. -/
def depToCdxComponent (dep : Dependency) : CycloneDxComponent :=
  { type := "library", name := dep.name, version := dep.version,
    purl := some (generatePurl dep),
    bomRef := some (dep.ecosystem ++ ":" ++ dep.name ++ "@" ++ dep.version),
    licenses := (optTruthy dep.license).map (fun lic => [{ id := some lic, name := none }]) }

/-- Model of `createCycloneDxSbom` (uuid/timestamp/config injected). -/
def createCycloneDxSbom (cfg : Config) (ts uuid : String) (deps : List Dependency) : CycloneDxSbom :=
  { bomFormat := "CycloneDX", specVersion := "1.5", version := 1,
    serialNumber := some ("urn:uuid:" ++ uuid),
    metadata :=
      { timestamp := ts,
        tools := some [{ vendor := some cfg.TOOL_VENDOR, name := cfg.TOOL_NAME,
                         version := some cfg.SERVER_VERSION }] },
    components := deps.map depToCdxComponent }

/-- One package of `createSpdxSbom`'s `deps.map((dep, index) => ...)` callback. -/
def depToSpdxPackage (dep : Dependency) (index : Nat) : SpdxPackage :=
  let spdxId := "SPDXRef-Package-" ++ sanitizeSpdxId dep.name ++ "-" ++ natToString index
  let purl := generatePurl dep
  let lic := jsOr dep.license "NOASSERTION"
  { name := dep.name, SPDXID := spdxId, downloadLocation := "NOASSERTION",
    versionInfo := dep.version, filesAnalyzed := some false,
    externalRefs := some [{ referenceCategory := "PACKAGE-MANAGER",
                            referenceType := "purl", referenceLocator := purl }],
    licenseConcluded := some lic, licenseDeclared := some lic }

/-- Model of `createSpdxSbom` (uuid/timestamp/config injected). -/
def createSpdxSbom (cfg : Config) (ts uuid : String) (deps : List Dependency) : SpdxSbom :=
  { spdxVersion := "SPDX-2.3", dataLicense := "CC0-1.0", SPDXID := "SPDXRef-DOCUMENT",
    name := "Generated SBOM",
    documentNamespace := "https://spdx.org/spdxdocs/" ++ uuid,
    creationInfo :=
      { created := ts,
        creators := ["Tool: " ++ cfg.TOOL_VENDOR ++ "/" ++ cfg.TOOL_NAME ++ "-" ++ cfg.SERVER_VERSION] },
    packages := deps.enum.map (fun p => depToSpdxPackage p.2 p.1) }

/-- Model of `sbomFromDependencies`; the try/catch around the pure construction can
never take the catch branch in the embedding, so the result is always a
success envelope. -/
def sbomFromDependencies (cfg : Config) (ts uuid : String)
    (deps : List Dependency) (format : SbomFormat) : ApiResponse Sbom :=
  let sbom : Sbom :=
    match format with
    | .cyclonedx => .cdx (createCycloneDxSbom cfg ts uuid deps)
    | .spdx => .spdx (createSpdxSbom cfg ts uuid deps)
  .success sbom (successMeta ts)

/-! ## Merge engine (`src/tools/merge.ts`, concatenated into
`tests/unit/tools.test.ts` lines 381-641) -/

/-- Model of `componentKey(name, version)` = `` `${name}@${version}` ``. -/
def componentKey (name version : String) : String :=
  name ++ "@" ++ version

/-- Model of `extractCycloneDxComponents`: per-document map keyed `name@version`,
first occurrence wins. -/
def extractCycloneDxComponents (sbom : CycloneDxSbom) : List (String × CycloneDxComponent) :=
  insertAbsentFold (fun c => componentKey c.name c.version) (fun c => c) [] sbom.components

/-- Model of `extractSpdxPackages`: per-document map keyed `name@versionInfo`,
first occurrence wins. -/
def extractSpdxPackages (sbom : SpdxSbom) : List (String × SpdxPackage) :=
  insertAbsentFold (fun p => componentKey p.name p.versionInfo) (fun p => p) [] sbom.packages

/-- Model of `cycloneDxToSpdxPackage(component, index)`. -/
def cycloneDxToSpdxPackage (component : CycloneDxComponent) (index : Nat) : SpdxPackage :=
  let spdxId := "SPDXRef-Package-" ++ sanitizeSpdxId component.name ++ "-" ++ natToString index
  let externalRefs : Option (List SpdxExternalRef) :=
    match optTruthy component.purl with
    | some p => some [{ referenceCategory := "PACKAGE-MANAGER",
                        referenceType := "purl", referenceLocator := p }]
    | none => none
  let licenseId : String :=
    match component.licenses with
    | some (entry :: _) => jsOr entry.id (jsOr entry.name "NOASSERTION")
    | _ => "NOASSERTION"
  { name := component.name, SPDXID := spdxId, downloadLocation := "NOASSERTION",
    versionInfo := component.version, filesAnalyzed := some false,
    externalRefs := externalRefs,
    licenseConcluded := some licenseId, licenseDeclared := some licenseId }

/-- Model of `spdxToCycloneDxComponent(pkg)`. -/
def spdxToCycloneDxComponent (pkg : SpdxPackage) : CycloneDxComponent :=
  let purlRef := pkg.externalRefs.bind (fun refs => refs.find? (fun ref => ref.referenceType == "purl"))
  { type := "library", name := pkg.name, version := pkg.versionInfo,
    bomRef := some (pkg.name ++ "@" ++ pkg.versionInfo),
    purl := purlRef.map (fun r => r.referenceLocator),
    licenses :=
      match optTruthy pkg.licenseDeclared with
      | some l => if l == "NOASSERTION" then none
                  else some [{ id := some l, name := none }]
      | none => none }

/-- One iteration of `sbomMerge`'s accumulation loop: classify the document
and fold its extracted records into the matching global map (first writer
per key wins); unrecognized documents leave both maps unchanged. -/
def mergeStep (acc : List (String × CycloneDxComponent) × List (String × SpdxPackage))
    (sbom : Sbom) : List (String × CycloneDxComponent) × List (String × SpdxPackage) :=
  match sbom with
  | .cdx d =>
    if d.bomFormat == "CycloneDX" then
      (insertAbsentFold (fun kv => kv.1) (fun kv => kv.2) acc.1 (extractCycloneDxComponents d), acc.2)
    else acc
  | .spdx d =>
    if d.spdxVersion == "SPDX-2.3" then
      (acc.1, insertAbsentFold (fun kv => kv.1) (fun kv => kv.2) acc.2 (extractSpdxPackages d))
    else acc

/-- The accumulation phase of `sbomMerge` over all input documents. -/
def mergeAccumulate (sboms : List Sbom) :
    List (String × CycloneDxComponent) × List (String × SpdxPackage) :=
  sboms.foldl mergeStep ([], [])

/-- Cross-population for CycloneDX output: convert every SPDX-only key. -/
def mergeFillCdx (cdxMap : List (String × CycloneDxComponent))
    (spdxMap : List (String × SpdxPackage)) : List (String × CycloneDxComponent) :=
  insertAbsentFold (fun kv => kv.1) (fun kv => spdxToCycloneDxComponent kv.2) cdxMap spdxMap

/-- Cross-population for SPDX output: convert every CycloneDX-only key,
with the sequence index starting at `allSpdxPackages.size` and
post-incremented on each synthesis. -/
def mergeFillSpdx (cdxMap : List (String × CycloneDxComponent))
    (spdxMap : List (String × SpdxPackage)) : List (String × SpdxPackage) :=
  (cdxMap.foldl
    (fun (st : List (String × SpdxPackage) × Nat) kv =>
      if !(mapHas st.1 kv.1) then
        (mapSet st.1 kv.1 (cycloneDxToSpdxPackage kv.2 st.2), st.2 + 1)
      else st)
    (spdxMap, mapSize spdxMap)).1

/-- The merged CycloneDX document. -/
def mergedCdxDoc (cfg : Config) (ts uuid : String)
    (cdxMap : List (String × CycloneDxComponent))
    (spdxMap : List (String × SpdxPackage)) : CycloneDxSbom :=
  { bomFormat := "CycloneDX", specVersion := "1.5", version := 1,
    serialNumber := some ("urn:uuid:" ++ uuid),
    metadata :=
      { timestamp := ts,
        tools := some [{ vendor := some cfg.TOOL_VENDOR, name := cfg.TOOL_NAME,
                         version := some cfg.SERVER_VERSION }] },
    components := mapValues (mergeFillCdx cdxMap spdxMap) }

/-- The merged SPDX document. -/
def mergedSpdxDoc (cfg : Config) (ts uuid : String)
    (cdxMap : List (String × CycloneDxComponent))
    (spdxMap : List (String × SpdxPackage)) : SpdxSbom :=
  { spdxVersion := "SPDX-2.3", dataLicense := "CC0-1.0", SPDXID := "SPDXRef-DOCUMENT",
    name := "Merged SBOM",
    documentNamespace := "https://spdx.org/spdxdocs/" ++ uuid,
    creationInfo :=
      { created := ts,
        creators := ["Tool: " ++ cfg.TOOL_VENDOR ++ "/" ++ cfg.TOOL_NAME ++ "-" ++ cfg.SERVER_VERSION] },
    packages := mapValues (mergeFillSpdx cdxMap spdxMap) }

/-- Model of `sbomMerge`; the catch branch (INTERNAL_ERROR) is unreachable in the
embedding because the construction is total. -/
def sbomMerge (cfg : Config) (ts uuid : String)
    (sboms : List Sbom) (format : SbomFormat) : ApiResponse Sbom :=
  if sboms.length == 0 then
    .failure { code := .INVALID_INPUT,
               message := "At least one SBOM is required for merging" }
      { retrieved_at := ts }
  else
    let acc := mergeAccumulate sboms
    match format with
    | .cyclonedx => .success (.cdx (mergedCdxDoc cfg ts uuid acc.1 acc.2)) (successMeta ts)
    | .spdx => .success (.spdx (mergedSpdxDoc cfg ts uuid acc.1 acc.2)) (successMeta ts)

/-! ## Diff engine (`src/tools/diff.ts`) -/

/-- The internal normalized record of `diff.ts`. -/
structure NormalizedComponent where
  name : String
  version : String
  purl : Option String := none
  ecosystem : Option String := none
deriving DecidableEq

/-- Model of `extractEcosystemFromPurl`: match `/^pkg:([^/]+)\//` on the character
sequence and return the first capture (the maximal run of non-`/`
characters after `pkg:`, which must be non-empty and followed by `/`);
`undefined` and `""` inputs (both falsy) yield `undefined`. -/
def extractEcosystemFromPurl (purl : Option String) : Option String :=
  match optTruthy purl with
  | none => none
  | some p =>
    match p.data with
    | 'p' :: 'k' :: 'g' :: ':' :: rest =>
      let seg := rest.takeWhile (fun c => c != '/')
      if seg.length > 0 && seg.length < rest.length then some ⟨seg⟩ else none
    | _ => none

/-- The normalized record built from one CycloneDX component. -/
def normalizeCdxComponent (component : CycloneDxComponent) : NormalizedComponent :=
  { name := component.name, version := component.version, purl := component.purl,
    ecosystem := extractEcosystemFromPurl component.purl }

/-- Model of `normalizeCycloneDxComponents`: keyed by name only, via unconditional
`Map.set` (so the last occurrence of a name wins). -/
def normalizeCycloneDxComponents (sbom : CycloneDxSbom) : List (String × NormalizedComponent) :=
  setFold (fun c => c.name) normalizeCdxComponent [] sbom.components

/-- The purl of an SPDX package: locator of the first external reference
whose type is `purl` (optional chaining on `externalRefs`). -/
def spdxPackagePurl (pkg : SpdxPackage) : Option String :=
  (pkg.externalRefs.bind (fun refs => refs.find? (fun ref => ref.referenceType == "purl"))).map
    (fun r => r.referenceLocator)

/-- The normalized record built from one SPDX package. -/
def normalizeSpdxPackage (pkg : SpdxPackage) : NormalizedComponent :=
  { name := pkg.name, version := pkg.versionInfo, purl := spdxPackagePurl pkg,
    ecosystem := extractEcosystemFromPurl (spdxPackagePurl pkg) }

/-- Model of `normalizeSpdxPackages`: keyed by name only, last occurrence wins. -/
def normalizeSpdxPackages (sbom : SpdxSbom) : List (String × NormalizedComponent) :=
  setFold (fun p => p.name) normalizeSpdxPackage [] sbom.packages

/-- Model of `normalizeComponents`: classify, normalize, and map unrecognized
documents to the empty record set. -/
def normalizeComponents (sbom : Sbom) : List (String × NormalizedComponent) :=
  match sbom with
  | .cdx d => if d.bomFormat == "CycloneDX" then normalizeCycloneDxComponents d else []
  | .spdx d => if d.spdxVersion == "SPDX-2.3" then normalizeSpdxPackages d else []

/-- Model of `ComponentDiff`. -/
structure ComponentDiff where
  name : String
  ecosystem : Option String := none
  purl : Option String := none
  oldVersion : Option String := none
  newVersion : Option String := none
deriving DecidableEq

/-- Model of `SbomDiffResult`. -/
structure SbomDiffResult where
  added : List ComponentDiff
  removed : List ComponentDiff
  version_changed : List ComponentDiff
deriving DecidableEq

/-- Code-point lexicographic strict comparison of character lists. -/
def charsLt : List Char → List Char → Bool
  | [], [] => false
  | [], _ :: _ => true
  | _ :: _, [] => false
  | a :: as, b :: bs => if a < b then true else if b < a then false else charsLt as bs

/-- Code-point lexicographic `≤` on strings (executable). -/
def strLe (a b : String) : Bool :=
  !(charsLt b.data a.data)

/-- The `sortByName` comparator: `a.name.localeCompare(b.name)`, modelled
as code-point string comparison (see module header). -/
def diffNameLe (a b : ComponentDiff) : Bool :=
  strLe a.name b.name

/-- The comparator as a relation, for `List.insertionSort`. -/
def diffNameRel (a b : ComponentDiff) : Prop :=
  diffNameLe a b = true

instance : DecidableRel diffNameRel := fun a b => by
  unfold diffNameRel; infer_instance

/-- The data part of `sbomDiff`: the single pass over the new map pushes
into `added` and `versionChanged` independently, so it is rendered as two
`filterMap`s; the pass over the old map builds `removed`; all three lists
are then sorted by name. -/
def sbomDiffData (oldSbom newSbom : Sbom) : SbomDiffResult :=
  let oldComponents := normalizeComponents oldSbom
  let newComponents := normalizeComponents newSbom
  let added := newComponents.filterMap (fun kv =>
    match mapGet oldComponents kv.1 with
    | none => some { name := kv.2.name, ecosystem := kv.2.ecosystem,
                     purl := kv.2.purl, newVersion := some kv.2.version }
    | some _ => none)
  let versionChanged := newComponents.filterMap (fun kv =>
    match mapGet oldComponents kv.1 with
    | some oldComp =>
      if oldComp.version != kv.2.version then
        some { name := kv.2.name, ecosystem := kv.2.ecosystem, purl := kv.2.purl,
               oldVersion := some oldComp.version, newVersion := some kv.2.version }
      else none
    | none => none)
  let removed := oldComponents.filterMap (fun kv =>
    if !(mapHas newComponents kv.1) then
      some { name := kv.2.name, ecosystem := kv.2.ecosystem,
             purl := kv.2.purl, oldVersion := some kv.2.version }
    else none)
  { added := added.insertionSort diffNameRel,
    removed := removed.insertionSort diffNameRel,
    version_changed := versionChanged.insertionSort diffNameRel }

/-- Model of `sbomDiff`; the catch branch is unreachable in the embedding. -/
def sbomDiff (ts : String) (oldSbom newSbom : Sbom) : ApiResponse SbomDiffResult :=
  .success (sbomDiffData oldSbom newSbom) (successMeta ts)

/-! ## Derived notions used by the claims -/

/-- The `name@version` keys a document contributes to a merge: its
components/packages when it is recognized, nothing otherwise. -/
def recognizedKeys : Sbom → List String
  | .cdx d =>
    if d.bomFormat == "CycloneDX" then
      d.components.map (fun c => componentKey c.name c.version)
    else []
  | .spdx d =>
    if d.spdxVersion == "SPDX-2.3" then
      d.packages.map (fun p => componentKey p.name p.versionInfo)
    else []

/-- All `name@version` keys occurring across a list of input documents. -/
def inputKeys (sboms : List Sbom) : List String :=
  (sboms.map recognizedKeys).flatten

/-- The `name@version` keys of the entry list of an output document. -/
def outputKeys : Sbom → List String
  | .cdx d => d.components.map (fun c => componentKey c.name c.version)
  | .spdx d => d.packages.map (fun p => componentKey p.name p.versionInfo)

/-- The SPDXIDs of an SPDX response document (empty for CycloneDX or
failure responses). -/
def responseSpdxIds : ApiResponse Sbom → List String
  | .success (.spdx d) _ => d.packages.map (fun p => p.SPDXID)
  | _ => []

/-- The success/failure envelope invariant of the spec, relative to the
injected timestamp model: successes carry the fixed source tag and an
ISO-8601 `retrieved_at`; failures carry a code from the defined non-empty
set (the failure constructor carries no data field by construction). -/
def envelopeOk {α : Type} : ApiResponse α → Prop
  | .success _ meta => meta.source = some "sbom-tools" ∧ isIso8601 meta.retrieved_at = true
  | .failure err _ => err.code ∈ definedErrorCodes ∧ errorCodeName err.code ≠ ""

/-! ## Lemmas about the map model -/

theorem mapKeys_cons {α : Type} (p : String × α) (m : List (String × α)) :
    mapKeys (p :: m) = p.1 :: mapKeys m := rfl

theorem mapKeys_append {α : Type} (m₁ m₂ : List (String × α)) :
    mapKeys (m₁ ++ m₂) = mapKeys m₁ ++ mapKeys m₂ := by
  simp [mapKeys]

theorem mapHas_cons {α : Type} (p : String × α) (m : List (String × α)) (k : String) :
    mapHas (p :: m) k = ((p.1 == k) || mapHas m k) := by
  simp [mapHas]

theorem mapHas_iff_mem_keys {α : Type} (m : List (String × α)) (k : String) :
    mapHas m k = true ↔ k ∈ mapKeys m := by
  simp only [mapHas, mapKeys, List.any_eq_true, List.mem_map, beq_iff_eq]

theorem mapHas_append {α : Type} (m₁ m₂ : List (String × α)) (k : String) :
    mapHas (m₁ ++ m₂) k = (mapHas m₁ k || mapHas m₂ k) := by
  simp [mapHas, List.any_append]

theorem mapGet_cons_of_pos {α : Type} {p : String × α} {k : String}
    (m : List (String × α)) (h : p.1 = k) : mapGet (p :: m) k = some p.2 := by
  unfold mapGet
  rw [@List.find?_cons_of_pos _ (fun q => q.1 == k) p m (by simpa [beq_iff_eq] using h)]
  rfl

theorem mapGet_cons_of_neg {α : Type} {p : String × α} {k : String}
    (m : List (String × α)) (h : p.1 ≠ k) : mapGet (p :: m) k = mapGet m k := by
  unfold mapGet
  rw [@List.find?_cons_of_neg _ (fun q => q.1 == k) p m (by simpa [beq_iff_eq] using h)]

theorem mapGet_eq_none_iff {α : Type} (m : List (String × α)) (k : String) :
    mapGet m k = none ↔ mapHas m k = false := by
  simp [mapGet, mapHas, List.find?_eq_none, List.any_eq_false, Option.map_eq_none']

theorem mapGet_isSome_iff {α : Type} (m : List (String × α)) (k : String) :
    (mapGet m k).isSome = mapHas m k := by
  by_cases h : mapHas m k
  · cases hg : mapGet m k with
    | none => rw [mapGet_eq_none_iff, h] at hg; cases hg
    | some v => simp [h, hg]
  · rw [Bool.not_eq_true] at h
    have := (mapGet_eq_none_iff m k).mpr h
    simp [this, h]

theorem mapGet_append {α : Type} (m₁ m₂ : List (String × α)) (k : String) :
    mapGet (m₁ ++ m₂) k = (mapGet m₁ k).or (mapGet m₂ k) := by
  simp only [mapGet, List.find?_append]
  cases List.find? (fun p => p.1 == k) m₁ <;> simp

theorem mapGet_singleton {α : Type} (k₀ : String) (v : α) (k : String) :
    mapGet [(k₀, v)] k = if k₀ = k then some v else none := by
  by_cases h : k₀ = k
  · subst h; rw [if_pos rfl]; exact mapGet_cons_of_pos _ rfl
  · rw [if_neg h, mapGet_cons_of_neg _ h]; rfl

theorem mapGet_eq_some_mem {α : Type} {m : List (String × α)} {k : String} {v : α}
    (h : mapGet m k = some v) : (k, v) ∈ m := by
  simp only [mapGet, Option.map_eq_some'] at h
  obtain ⟨p, hp, rfl⟩ := h
  have hmem := List.mem_of_find?_eq_some hp
  have hk := List.find?_some hp
  rw [beq_iff_eq] at hk
  have : p = (k, p.2) := by cases p; simp_all
  rwa [this] at hmem

theorem mem_iff_mapGet_of_nodup {α : Type} {m : List (String × α)}
    (h : (mapKeys m).Nodup) (k : String) (v : α) :
    (k, v) ∈ m ↔ mapGet m k = some v := by
  constructor
  · intro hmem
    induction m with
    | nil => cases hmem
    | cons p m ih =>
      rw [mapKeys_cons, List.nodup_cons] at h
      rcases List.mem_cons.mp hmem with hp | hp
      · subst hp; exact mapGet_cons_of_pos _ rfl
      · have hkm : k ∈ mapKeys m := by
          simp only [mapKeys, List.mem_map]; exact ⟨(k, v), hp, rfl⟩
        have hne : p.1 ≠ k := fun he => h.1 (he ▸ hkm)
        rw [mapGet_cons_of_neg _ hne]
        exact ih h.2 hp
  · exact mapGet_eq_some_mem

theorem mapSet_of_not_has {α : Type} {m : List (String × α)} {k : String}
    (h : mapHas m k = false) (v : α) : mapSet m k v = m ++ [(k, v)] := by
  simp [mapSet, h]

theorem mapGet_update {α : Type} (m : List (String × α)) (k : String) (v : α) (k' : String) :
    mapGet (m.map (fun p => if p.1 == k then (k, v) else p)) k' =
      if k' = k then (if mapHas m k then some v else none) else mapGet m k' := by
  induction m with
  | nil => by_cases h : k' = k <;> simp [mapGet, mapHas, h]
  | cons p m ih =>
    rw [List.map_cons, mapHas_cons]
    by_cases hpk : p.1 = k
    · rw [if_pos (show (p.1 == k) = true by simpa [beq_iff_eq] using hpk)]
      have hhead : ((p.1 == k) || mapHas m k) = true := by
        simp [beq_iff_eq, hpk]
      rw [hhead]
      by_cases hk : k' = k
      · subst hk
        rw [mapGet_cons_of_pos _ rfl, if_pos rfl]
        simp
      · rw [mapGet_cons_of_neg _ (show (k : String) ≠ k' from fun he => hk he.symm),
          mapGet_cons_of_neg _ (show p.1 ≠ k' from hpk ▸ fun he => hk he.symm), ih,
          if_neg hk, if_neg hk]
    · rw [if_neg (show ¬ (p.1 == k) = true by simpa [beq_iff_eq] using hpk)]
      have hhead : ((p.1 == k) || mapHas m k) = mapHas m k := by
        simp [beq_iff_eq, hpk]
      rw [hhead]
      by_cases hpk' : p.1 = k'
      · have hk'k : ¬ k' = k := fun he => hpk (he ▸ hpk')
        rw [mapGet_cons_of_pos _ hpk', mapGet_cons_of_pos _ hpk', if_neg hk'k]
      · rw [mapGet_cons_of_neg _ hpk', mapGet_cons_of_neg _ hpk', ih]

theorem mapGet_mapSet {α : Type} (m : List (String × α)) (k : String) (v : α) (k' : String) :
    mapGet (mapSet m k v) k' = if k' = k then some v else mapGet m k' := by
  by_cases h : mapHas m k
  · rw [show mapSet m k v = m.map (fun p => if p.1 == k then (k, v) else p) from by
      simp [mapSet, h]]
    rw [mapGet_update, h]
    by_cases hk : k' = k <;> simp [hk]
  · rw [Bool.not_eq_true] at h
    rw [mapSet_of_not_has h, mapGet_append, mapGet_singleton]
    by_cases hk : k' = k
    · subst hk
      rw [(mapGet_eq_none_iff m k').mpr h]
      simp
    · rw [if_neg hk, if_neg (fun he => hk he.symm)]
      cases mapGet m k' <;> simp

theorem mapKeys_mapSet {α : Type} (m : List (String × α)) (k : String) (v : α) :
    mapKeys (mapSet m k v) = if mapHas m k then mapKeys m else mapKeys m ++ [k] := by
  by_cases h : mapHas m k
  · simp only [mapSet, h, if_true, mapKeys, List.map_map]
    refine List.map_congr_left (fun p _ => ?_)
    by_cases hpk : p.1 = k
    · simp [Function.comp, beq_iff_eq, hpk]
    · simp [Function.comp, beq_iff_eq, hpk]
  · simp [mapSet, h, mapKeys]

theorem mem_mapSet {α : Type} {m : List (String × α)} {k : String} {v : α} {p : String × α}
    (h : p ∈ mapSet m k v) : p ∈ m ∨ p = (k, v) := by
  by_cases hh : mapHas m k
  · simp only [mapSet, hh, if_true] at h
    obtain ⟨q, hq, hqe⟩ := List.mem_map.mp h
    by_cases hqk : q.1 = k
    · right; rw [← hqe]; simp [beq_iff_eq, hqk]
    · left; rw [← hqe]; simpa [beq_iff_eq, hqk] using hq
  · rw [Bool.not_eq_true] at hh
    rw [mapSet_of_not_has hh] at h
    rcases List.mem_append.mp h with h | h
    · exact Or.inl h
    · right; simpa using h

/-! ## Lemmas about the two fold patterns -/

theorem insertAbsentFold_nil {α β : Type} (key : β → String) (val : β → α)
    (init : List (String × α)) : insertAbsentFold key val init [] = init := rfl

theorem insertAbsentFold_cons {α β : Type} (key : β → String) (val : β → α)
    (init : List (String × α)) (x : β) (l : List β) :
    insertAbsentFold key val init (x :: l) =
      insertAbsentFold key val
        (if !(mapHas init (key x)) then mapSet init (key x) (val x) else init) l := rfl

theorem mapHas_insertAbsentFold {α β : Type} (key : β → String) (val : β → α)
    (l : List β) : ∀ (init : List (String × α)) (k : String),
    mapHas (insertAbsentFold key val init l) k =
      (mapHas init k || l.any (fun x => key x == k)) := by
  induction l with
  | nil => intro init k; simp [insertAbsentFold_nil]
  | cons x l ih =>
    intro init k
    rw [insertAbsentFold_cons, List.any_cons]
    by_cases h : mapHas init (key x)
    · rw [if_neg (by simp [h]), ih]
      by_cases hxk : key x = k
      · have h2 : mapHas init k = true := hxk ▸ h
        have h3 : (key x == k) = true := by simpa [beq_iff_eq] using hxk
        rw [h2, h3]
        simp
      · rw [beq_eq_false_iff_ne.mpr hxk]
        simp
    · rw [Bool.not_eq_true] at h
      rw [if_pos (by simp [h]), mapSet_of_not_has h, ih, mapHas_append]
      have h4 : mapHas [(key x, val x)] k = (key x == k) := by
        simp [mapHas]
      rw [h4]
      cases mapHas init k <;> cases hxk : (key x == k) <;> simp

theorem mapGet_insertAbsentFold {α β : Type} (key : β → String) (val : β → α)
    (l : List β) : ∀ (init : List (String × α)) (k : String),
    mapGet (insertAbsentFold key val init l) k =
      (match mapGet init k with
       | some v => some v
       | none => (l.find? (fun x => key x == k)).map val) := by
  induction l with
  | nil =>
    intro init k
    rw [insertAbsentFold_nil]
    cases mapGet init k <;> simp
  | cons x l ih =>
    intro init k
    rw [insertAbsentFold_cons]
    by_cases hxk : key x = k
    · have hb : ((fun y => key y == k) x = true) := by simpa [beq_iff_eq] using hxk
      rw [@List.find?_cons_of_pos _ (fun y => key y == k) x l hb]
      by_cases h : mapHas init (key x)
      · rw [if_neg (by simp [h]), ih]
        cases hg : mapGet init k with
        | some v => simp
        | none =>
          rw [mapGet_eq_none_iff, ← hxk] at hg
          rw [hg] at h
          cases h
      · rw [Bool.not_eq_true] at h
        rw [if_pos (by simp [h]), ih, mapSet_of_not_has h, mapGet_append, mapGet_singleton,
          if_pos hxk]
        have hg : mapGet init k = none := by
          rw [mapGet_eq_none_iff, ← hxk]; exact h
        rw [hg]
        simp
    · have hb : ¬ ((fun y => key y == k) x = true) := by simpa [beq_iff_eq] using hxk
      rw [@List.find?_cons_of_neg _ (fun y => key y == k) x l hb]
      by_cases h : mapHas init (key x)
      · rw [if_neg (by simp [h]), ih]
      · rw [Bool.not_eq_true] at h
        rw [if_pos (by simp [h]), ih, mapSet_of_not_has h, mapGet_append, mapGet_singleton,
          if_neg hxk]
        cases mapGet init k <;> simp

theorem mem_insertAbsentFold {α β : Type} (key : β → String) (val : β → α)
    (l : List β) : ∀ (init : List (String × α)) (p : String × α),
    p ∈ insertAbsentFold key val init l →
      p ∈ init ∨ ∃ x ∈ l, p = (key x, val x) := by
  induction l with
  | nil => intro init p h; exact Or.inl h
  | cons x l ih =>
    intro init p h
    rw [insertAbsentFold_cons] at h
    by_cases hh : mapHas init (key x)
    · rw [if_neg (by simp [hh])] at h
      rcases ih _ _ h with h | ⟨y, hy, hpe⟩
      · exact Or.inl h
      · exact Or.inr ⟨y, List.mem_cons_of_mem _ hy, hpe⟩
    · rw [Bool.not_eq_true] at hh
      rw [if_pos (by simp [hh])] at h
      rcases ih _ _ h with h | ⟨y, hy, hpe⟩
      · rcases mem_mapSet h with h | h
        · exact Or.inl h
        · exact Or.inr ⟨x, List.mem_cons_self _ _, h⟩
      · exact Or.inr ⟨y, List.mem_cons_of_mem _ hy, hpe⟩

theorem keys_nodup_insertAbsentFold {α β : Type} (key : β → String) (val : β → α)
    (l : List β) : ∀ (init : List (String × α)),
    (mapKeys init).Nodup → (mapKeys (insertAbsentFold key val init l)).Nodup := by
  induction l with
  | nil => intro init h; exact h
  | cons x l ih =>
    intro init h
    rw [insertAbsentFold_cons]
    by_cases hh : mapHas init (key x)
    · rw [if_neg (by simp [hh])]; exact ih _ h
    · rw [Bool.not_eq_true] at hh
      rw [if_pos (by simp [hh])]
      refine ih _ ?_
      rw [mapSet_of_not_has hh, mapKeys_append, List.nodup_append]
      refine ⟨h, List.nodup_singleton _, ?_⟩
      intro a ha hb
      have hak : a = key x := by simpa [mapKeys] using hb
      rw [hak] at ha
      exact absurd ((mapHas_iff_mem_keys init (key x)).mpr ha) (by simp [hh])

theorem setFold_nil {α β : Type} (key : β → String) (val : β → α)
    (init : List (String × α)) : setFold key val init [] = init := rfl

theorem setFold_cons {α β : Type} (key : β → String) (val : β → α)
    (init : List (String × α)) (x : β) (l : List β) :
    setFold key val init (x :: l) =
      setFold key val (mapSet init (key x) (val x)) l := rfl

theorem mapGet_setFold {α β : Type} (key : β → String) (val : β → α)
    (l : List β) : ∀ (init : List (String × α)) (k : String),
    mapGet (setFold key val init l) k =
      (match l.reverse.find? (fun x => key x == k) with
       | some x => some (val x)
       | none => mapGet init k) := by
  induction l with
  | nil => intro init k; simp [setFold_nil]
  | cons x l ih =>
    intro init k
    rw [setFold_cons, ih, List.reverse_cons, List.find?_append]
    cases hf : l.reverse.find? (fun x => key x == k) with
    | some y => simp
    | none =>
      simp only [Option.none_or]
      by_cases hxk : key x = k
      · have hb : ((fun y => key y == k) x = true) := by simpa [beq_iff_eq] using hxk
        rw [@List.find?_cons_of_pos _ (fun y => key y == k) x [] hb, mapGet_mapSet,
          if_pos hxk.symm]
      · have hb : ¬ ((fun y => key y == k) x = true) := by simpa [beq_iff_eq] using hxk
        rw [@List.find?_cons_of_neg _ (fun y => key y == k) x [] hb, mapGet_mapSet,
          if_neg (fun he => hxk he.symm)]
        rfl

theorem mapHas_setFold {α β : Type} (key : β → String) (val : β → α)
    (l : List β) : ∀ (init : List (String × α)) (k : String),
    mapHas (setFold key val init l) k = (mapHas init k || l.any (fun x => key x == k)) := by
  induction l with
  | nil => intro init k; simp [setFold_nil]
  | cons x l ih =>
    intro init k
    rw [setFold_cons, ih, List.any_cons]
    by_cases hxk : key x = k
    · rw [hxk]
      have h1 : mapHas (mapSet init k (val x)) k = true := by
        rw [← mapGet_isSome_iff, mapGet_mapSet, if_pos rfl]; rfl
      rw [h1]
      simp
    · have h1 : mapHas (mapSet init (key x) (val x)) k = mapHas init k := by
        rw [← mapGet_isSome_iff, mapGet_mapSet, if_neg (fun he => hxk he.symm),
          mapGet_isSome_iff]
      rw [h1, beq_eq_false_iff_ne.mpr hxk]
      simp

theorem mem_setFold {α β : Type} (key : β → String) (val : β → α)
    (l : List β) : ∀ (init : List (String × α)) (p : String × α),
    p ∈ setFold key val init l → p ∈ init ∨ ∃ x ∈ l, p = (key x, val x) := by
  induction l with
  | nil => intro init p h; exact Or.inl h
  | cons x l ih =>
    intro init p h
    rw [setFold_cons] at h
    rcases ih _ _ h with h | ⟨y, hy, hpe⟩
    · rcases mem_mapSet h with h | h
      · exact Or.inl h
      · exact Or.inr ⟨x, List.mem_cons_self _ _, h⟩
    · exact Or.inr ⟨y, List.mem_cons_of_mem _ hy, hpe⟩

theorem keys_nodup_setFold {α β : Type} (key : β → String) (val : β → α)
    (l : List β) : ∀ (init : List (String × α)),
    (mapKeys init).Nodup → (mapKeys (setFold key val init l)).Nodup := by
  induction l with
  | nil => intro init h; exact h
  | cons x l ih =>
    intro init h
    rw [setFold_cons]
    refine ih _ ?_
    rw [mapKeys_mapSet]
    by_cases hh : mapHas init (key x)
    · rw [if_pos hh]; exact h
    · rw [Bool.not_eq_true] at hh
      rw [if_neg (by simp [hh]), List.nodup_append]
      refine ⟨h, List.nodup_singleton _, ?_⟩
      intro a ha hb
      have hak : a = key x := by simpa using hb
      rw [hak] at ha
      exact absurd ((mapHas_iff_mem_keys init (key x)).mpr ha) (by simp [hh])

/-! ## Decimal rendering: injectivity and digit facts -/

/-- Numeric value of a digit string (inverse of `decimalDigits`). -/
def valOfDigits (l : List Char) : Nat :=
  l.foldl (fun a c => a * 10 + (c.toNat - 48)) 0

theorem digitChar_toNat {d : Nat} (h : d < 10) : (Char.ofNat (48 + d)).toNat = 48 + d := by
  interval_cases d <;> decide

theorem digitChar_ne_dash {d : Nat} (h : d < 10) : Char.ofNat (48 + d) ≠ '-' := by
  interval_cases d <;> decide

theorem valOfDigits_append_digit (l : List Char) (c : Char) :
    valOfDigits (l ++ [c]) = valOfDigits l * 10 + (c.toNat - 48) := by
  simp [valOfDigits, List.foldl_append]

theorem decimalDigitsAux_congr :
    ∀ (f₁ f₂ n : Nat), n < f₁ → n < f₂ → decimalDigitsAux f₁ n = decimalDigitsAux f₂ n := by
  intro f₁
  induction f₁ with
  | zero => intro f₂ n h₁ _; omega
  | succ f₁ ih =>
    intro f₂ n h₁ h₂
    cases f₂ with
    | zero => omega
    | succ f₂ =>
      simp only [decimalDigitsAux]
      by_cases h : n < 10
      · rw [if_pos h, if_pos h]
      · have hdiv : n / 10 < n := Nat.div_lt_self (by omega) (by omega)
        rw [if_neg h, if_neg h, ih f₂ (n / 10) (by omega) (by omega)]

theorem decimalDigits_eq (n : Nat) :
    decimalDigits n = if n < 10 then [Char.ofNat (48 + n)]
      else decimalDigits (n / 10) ++ [Char.ofNat (48 + n % 10)] := by
  by_cases h : n < 10
  · rw [if_pos h]
    show decimalDigitsAux (n + 1) n = _
    rw [show decimalDigitsAux (n + 1) n
        = if n < 10 then [Char.ofNat (48 + n)]
          else decimalDigitsAux n (n / 10) ++ [Char.ofNat (48 + n % 10)] from rfl]
    rw [if_pos h]
  · rw [if_neg h]
    have hdiv : n / 10 < n := Nat.div_lt_self (by omega) (by omega)
    show decimalDigitsAux (n + 1) n
        = decimalDigitsAux (n / 10 + 1) (n / 10) ++ [Char.ofNat (48 + n % 10)]
    rw [show decimalDigitsAux (n + 1) n
        = if n < 10 then [Char.ofNat (48 + n)]
          else decimalDigitsAux n (n / 10) ++ [Char.ofNat (48 + n % 10)] from rfl]
    rw [if_neg h]
    rw [decimalDigitsAux_congr n (n / 10 + 1) (n / 10) (by omega) (by omega)]

theorem valOfDigits_decimalDigits (n : Nat) : valOfDigits (decimalDigits n) = n := by
  induction n using Nat.strong_induction_on with
  | _ n ih =>
    rw [decimalDigits_eq]
    by_cases h : n < 10
    · rw [if_pos h]
      simp [valOfDigits, digitChar_toNat h]
    · rw [if_neg h]
      rw [valOfDigits_append_digit, ih (n / 10) (Nat.div_lt_self (by omega) (by omega)),
        digitChar_toNat (Nat.mod_lt _ (by omega))]
      omega

theorem decimalDigits_inj {m n : Nat} (h : decimalDigits m = decimalDigits n) : m = n := by
  have := congrArg valOfDigits h
  rwa [valOfDigits_decimalDigits, valOfDigits_decimalDigits] at this

theorem dash_not_mem_decimalDigits (n : Nat) : '-' ∉ decimalDigits n := by
  induction n using Nat.strong_induction_on with
  | _ n ih =>
    rw [decimalDigits_eq]
    by_cases h : n < 10
    · rw [if_pos h]
      simp only [List.mem_singleton]
      exact fun he => digitChar_ne_dash h he.symm
    · rw [if_neg h]
      intro hmem
      rcases List.mem_append.mp hmem with hmem | hmem
      · exact ih (n / 10) (Nat.div_lt_self (by omega) (by omega)) hmem
      · simp only [List.mem_singleton] at hmem
        exact digitChar_ne_dash (Nat.mod_lt _ (by omega)) hmem.symm

/-! ## Last-separator suffix extraction -/

theorem first_sep_eq {α : Type} (x : α) :
    ∀ (u₁ : List α) (u₂ v₁ v₂ : List α),
      u₁ ++ x :: v₁ = u₂ ++ x :: v₂ → x ∉ u₁ → x ∉ u₂ → u₁ = u₂ ∧ v₁ = v₂ := by
  intro u₁
  induction u₁ with
  | nil =>
    intro u₂ v₁ v₂ h h₁ h₂
    cases u₂ with
    | nil => simpa using h
    | cons b u₂ =>
      simp only [List.nil_append, List.cons_append, List.cons.injEq] at h
      exact absurd (h.1 ▸ List.mem_cons_self _ _) h₂
  | cons a u₁ ih =>
    intro u₂ v₁ v₂ h h₁ h₂
    cases u₂ with
    | nil =>
      simp only [List.cons_append, List.nil_append, List.cons.injEq] at h
      exact absurd (h.1 ▸ List.mem_cons_self _ _) h₁
    | cons b u₂ =>
      simp only [List.cons_append, List.cons.injEq] at h
      have hx₁ : x ∉ u₁ := fun hm => h₁ (List.mem_cons_of_mem _ hm)
      have hx₂ : x ∉ u₂ := fun hm => h₂ (List.mem_cons_of_mem _ hm)
      obtain ⟨he, hv⟩ := ih u₂ v₁ v₂ h.2 hx₁ hx₂
      exact ⟨by rw [h.1, he], hv⟩

theorem last_sep_suffix_eq {α : Type} (x : α) (l₁ l₂ d₁ d₂ : List α)
    (h : l₁ ++ x :: d₁ = l₂ ++ x :: d₂) (h₁ : x ∉ d₁) (h₂ : x ∉ d₂) : d₁ = d₂ := by
  have hrev := congrArg List.reverse h
  have e₁ : (l₁ ++ x :: d₁).reverse = d₁.reverse ++ x :: l₁.reverse := by
    simp [List.reverse_append]
  have e₂ : (l₂ ++ x :: d₂).reverse = d₂.reverse ++ x :: l₂.reverse := by
    simp [List.reverse_append]
  rw [e₁, e₂] at hrev
  have h₁r : x ∉ d₁.reverse := by simpa using h₁
  have h₂r : x ∉ d₂.reverse := by simpa using h₂
  have := (first_sep_eq x _ _ _ _ hrev h₁r h₂r).1
  have := congrArg List.reverse this
  simpa using this

theorem spdxId_index_inj {s₁ s₂ : String} {i₁ i₂ : Nat}
    (h : s₁ ++ "-" ++ natToString i₁ = s₂ ++ "-" ++ natToString i₂) : i₁ = i₂ := by
  have hd := congrArg String.data h
  have e₁ : (s₁ ++ "-" ++ natToString i₁).data = s₁.data ++ '-' :: decimalDigits i₁ := by
    simp [String.data_append, natToString]
  have e₂ : (s₂ ++ "-" ++ natToString i₂).data = s₂.data ++ '-' :: decimalDigits i₂ := by
    simp [String.data_append, natToString]
  rw [e₁, e₂] at hd
  exact decimalDigits_inj
    (last_sep_suffix_eq '-' _ _ _ _ hd (dash_not_mem_decimalDigits i₁)
      (dash_not_mem_decimalDigits i₂))

/-! ## The comparator model vs the string order -/

theorem charsLt_iff (u v : List Char) : charsLt u v = true ↔ u < v := by
  induction u generalizing v with
  | nil =>
    cases v with
    | nil =>
      simp only [charsLt]
      constructor
      · intro h; cases h
      · intro h; cases h
    | cons b bs =>
      simp only [charsLt]
      exact ⟨fun _ => List.Lex.nil, fun _ => trivial⟩
  | cons a as ih =>
    cases v with
    | nil =>
      simp only [charsLt]
      constructor
      · intro h; cases h
      · intro h; cases h
    | cons b bs =>
      simp only [charsLt]
      by_cases hab : a < b
      · rw [if_pos hab]
        exact ⟨fun _ => List.Lex.rel hab, fun _ => by simp⟩
      · rw [if_neg hab]
        by_cases hba : b < a
        · rw [if_pos hba]
          constructor
          · intro h; cases h
          · intro h
            cases h with
            | rel h' => exact absurd h' hab
            | cons h' => exact absurd hba (lt_irrefl a)
        · rw [if_neg hba]
          have hae : a = b := le_antisymm (not_lt.mp hba) (not_lt.mp hab)
          subst hae
          rw [ih bs]
          constructor
          · intro h; exact List.Lex.cons h
          · intro h
            cases h with
            | rel h' => exact absurd h' (lt_irrefl a)
            | cons h' => exact h'

theorem strLe_iff (a b : String) : strLe a b = true ↔ a ≤ b := by
  unfold strLe
  rw [Bool.not_eq_true']
  have hlt : charsLt b.data a.data = true ↔ b < a := by
    rw [charsLt_iff]
    exact String.lt_iff_toList_lt.symm
  constructor
  · intro h
    rw [← not_lt]
    intro hba
    rw [← hlt, h] at hba
    cases hba
  · intro h
    cases hc : charsLt b.data a.data
    · rfl
    · exact absurd (hlt.mp hc) (not_lt.mpr h)

theorem strLe_total (a b : String) : (strLe a b || strLe b a) = true := by
  rcases le_total a b with h | h
  · rw [(strLe_iff a b).mpr h]; simp
  · rw [(strLe_iff b a).mpr h]; simp

theorem strLe_trans {a b c : String} (h₁ : strLe a b = true) (h₂ : strLe b c = true) :
    strLe a c = true :=
  (strLe_iff a c).mpr (le_trans ((strLe_iff a b).mp h₁) ((strLe_iff b c).mp h₂))

instance : IsTotal ComponentDiff diffNameRel :=
  ⟨fun a b => by
    unfold diffNameRel diffNameLe
    rcases Bool.or_eq_true_iff.mp (strLe_total a.name b.name) with h | h
    · exact Or.inl h
    · exact Or.inr h⟩

instance : IsTrans ComponentDiff diffNameRel :=
  ⟨fun _ _ _ h₁ h₂ => strLe_trans h₁ h₂⟩

theorem insertionSort_names_sorted (l : List ComponentDiff) :
    (l.insertionSort diffNameRel).Pairwise (fun a b => a.name ≤ b.name) := by
  have h := List.sorted_insertionSort diffNameRel l
  exact h.imp (fun hr => (strLe_iff _ _).mp hr)

theorem mem_insertionSort_iff (l : List ComponentDiff) (e : ComponentDiff) :
    e ∈ l.insertionSort diffNameRel ↔ e ∈ l :=
  (List.perm_insertionSort diffNameRel l).mem_iff

/-! ## Invariants of the normalized and extracted maps -/

theorem normalize_mem_inv (s : Sbom) :
    ∀ p ∈ normalizeComponents s, p.2.name = p.1 ∧
      p.2.ecosystem = extractEcosystemFromPurl p.2.purl := by
  intro p hp
  cases s with
  | cdx d =>
    simp only [normalizeComponents] at hp
    by_cases hfmt : d.bomFormat == "CycloneDX"
    · rw [if_pos hfmt] at hp
      rcases mem_setFold _ _ _ _ _ hp with h | ⟨c, _, hpe⟩
      · cases h
      · subst hpe; exact ⟨rfl, rfl⟩
    · rw [if_neg hfmt] at hp; cases hp
  | spdx d =>
    simp only [normalizeComponents] at hp
    by_cases hfmt : d.spdxVersion == "SPDX-2.3"
    · rw [if_pos hfmt] at hp
      rcases mem_setFold _ _ _ _ _ hp with h | ⟨q, _, hpe⟩
      · cases h
      · subst hpe; exact ⟨rfl, rfl⟩
    · rw [if_neg hfmt] at hp; cases hp

theorem normalize_keys_nodup (s : Sbom) : (mapKeys (normalizeComponents s)).Nodup := by
  cases s with
  | cdx d =>
    simp only [normalizeComponents]
    by_cases hfmt : d.bomFormat == "CycloneDX"
    · rw [if_pos hfmt]; exact keys_nodup_setFold _ _ _ _ List.nodup_nil
    · rw [if_neg hfmt]; exact List.nodup_nil
  | spdx d =>
    simp only [normalizeComponents]
    by_cases hfmt : d.spdxVersion == "SPDX-2.3"
    · rw [if_pos hfmt]; exact keys_nodup_setFold _ _ _ _ List.nodup_nil
    · rw [if_neg hfmt]; exact List.nodup_nil

theorem mapGet_normalize_inv {s : Sbom} {k : String} {r : NormalizedComponent}
    (h : mapGet (normalizeComponents s) k = some r) :
    r.name = k ∧ r.ecosystem = extractEcosystemFromPurl r.purl :=
  normalize_mem_inv s (k, r) (mapGet_eq_some_mem h)

theorem extractCdx_mem_inv (d : CycloneDxSbom) :
    ∀ p ∈ extractCycloneDxComponents d, p.1 = componentKey p.2.name p.2.version := by
  intro p hp
  rcases mem_insertAbsentFold _ _ _ _ _ hp with h | ⟨c, _, hpe⟩
  · cases h
  · subst hpe; rfl

theorem extractSpdx_mem_inv (d : SpdxSbom) :
    ∀ p ∈ extractSpdxPackages d, p.1 = componentKey p.2.name p.2.versionInfo := by
  intro p hp
  rcases mem_insertAbsentFold _ _ _ _ _ hp with h | ⟨q, _, hpe⟩
  · cases h
  · subst hpe; rfl

/-- The `name@version` keys a document contributes to the component map. -/
def cdxDocKeys : Sbom → List String
  | .cdx d =>
    if d.bomFormat == "CycloneDX" then
      d.components.map (fun c => componentKey c.name c.version)
    else []
  | .spdx _ => []

/-- The `name@version` keys a document contributes to the package map. -/
def spdxDocKeys : Sbom → List String
  | .cdx _ => []
  | .spdx d =>
    if d.spdxVersion == "SPDX-2.3" then
      d.packages.map (fun p => componentKey p.name p.versionInfo)
    else []

theorem recognizedKeys_eq (s : Sbom) :
    recognizedKeys s = cdxDocKeys s ++ spdxDocKeys s := by
  cases s with
  | cdx d =>
    by_cases hfmt : d.bomFormat == "CycloneDX" <;>
      simp [recognizedKeys, cdxDocKeys, spdxDocKeys, hfmt]
  | spdx d =>
    by_cases hfmt : d.spdxVersion == "SPDX-2.3" <;>
      simp [recognizedKeys, cdxDocKeys, spdxDocKeys, hfmt]

theorem mapHas_extractCdx (d : CycloneDxSbom) (k : String) :
    (mapHas (extractCycloneDxComponents d) k = true) ↔
      k ∈ d.components.map (fun c => componentKey c.name c.version) := by
  unfold extractCycloneDxComponents
  rw [mapHas_insertAbsentFold]
  simp [mapHas, List.any_eq_true, List.mem_map, beq_iff_eq]

theorem mapHas_extractSpdx (d : SpdxSbom) (k : String) :
    (mapHas (extractSpdxPackages d) k = true) ↔
      k ∈ d.packages.map (fun p => componentKey p.name p.versionInfo) := by
  unfold extractSpdxPackages
  rw [mapHas_insertAbsentFold]
  simp [mapHas, List.any_eq_true, List.mem_map, beq_iff_eq]

theorem mergeStep_cdx_has (acc : List (String × CycloneDxComponent) × List (String × SpdxPackage))
    (s : Sbom) (k : String) :
    (mapHas (mergeStep acc s).1 k = true) ↔
      (mapHas acc.1 k = true ∨ k ∈ cdxDocKeys s) := by
  cases s with
  | cdx d =>
    by_cases hf : d.bomFormat == "CycloneDX"
    · simp only [mergeStep, hf, if_true, cdxDocKeys]
      rw [mapHas_insertAbsentFold]
      rw [Bool.or_eq_true]
      constructor
      · rintro (h | h)
        · exact Or.inl h
        · exact Or.inr ((mapHas_extractCdx d k).mp h)
      · rintro (h | h)
        · exact Or.inl h
        · exact Or.inr ((mapHas_extractCdx d k).mpr h)
    · simp [mergeStep, hf, cdxDocKeys]
  | spdx d =>
    by_cases hf : d.spdxVersion == "SPDX-2.3" <;>
      simp [mergeStep, hf, cdxDocKeys]

theorem mergeStep_spdx_has (acc : List (String × CycloneDxComponent) × List (String × SpdxPackage))
    (s : Sbom) (k : String) :
    (mapHas (mergeStep acc s).2 k = true) ↔
      (mapHas acc.2 k = true ∨ k ∈ spdxDocKeys s) := by
  cases s with
  | cdx d =>
    by_cases hf : d.bomFormat == "CycloneDX" <;>
      simp [mergeStep, hf, spdxDocKeys]
  | spdx d =>
    by_cases hf : d.spdxVersion == "SPDX-2.3"
    · simp only [mergeStep, hf, if_true, spdxDocKeys]
      rw [mapHas_insertAbsentFold]
      rw [Bool.or_eq_true]
      constructor
      · rintro (h | h)
        · exact Or.inl h
        · exact Or.inr ((mapHas_extractSpdx d k).mp h)
      · rintro (h | h)
        · exact Or.inl h
        · exact Or.inr ((mapHas_extractSpdx d k).mpr h)
    · simp [mergeStep, hf, spdxDocKeys]

theorem mergeStep_cdx_mem (acc : List (String × CycloneDxComponent) × List (String × SpdxPackage))
    (s : Sbom) : ∀ p ∈ (mergeStep acc s).1, p ∈ acc.1 ∨ p.1 = componentKey p.2.name p.2.version := by
  intro p hp
  cases s with
  | cdx d =>
    by_cases hf : d.bomFormat == "CycloneDX"
    · simp only [mergeStep, hf, if_true] at hp
      rcases mem_insertAbsentFold _ _ _ _ _ hp with h | ⟨kv, hkv, hpe⟩
      · exact Or.inl h
      · subst hpe
        exact Or.inr (extractCdx_mem_inv d kv hkv)
    · simp only [mergeStep, hf, if_false] at hp
      exact Or.inl hp
  | spdx d =>
    by_cases hf : d.spdxVersion == "SPDX-2.3" <;>
      simp only [mergeStep, hf, if_true, if_false] at hp <;> exact Or.inl hp

theorem mergeStep_spdx_mem (acc : List (String × CycloneDxComponent) × List (String × SpdxPackage))
    (s : Sbom) : ∀ p ∈ (mergeStep acc s).2, p ∈ acc.2 ∨ p.1 = componentKey p.2.name p.2.versionInfo := by
  intro p hp
  cases s with
  | cdx d =>
    by_cases hf : d.bomFormat == "CycloneDX" <;>
      simp only [mergeStep, hf, if_true, if_false] at hp <;> exact Or.inl hp
  | spdx d =>
    by_cases hf : d.spdxVersion == "SPDX-2.3"
    · simp only [mergeStep, hf, if_true] at hp
      rcases mem_insertAbsentFold _ _ _ _ _ hp with h | ⟨kv, hkv, hpe⟩
      · exact Or.inl h
      · subst hpe
        exact Or.inr (extractSpdx_mem_inv d kv hkv)
    · simp only [mergeStep, hf, if_false] at hp
      exact Or.inl hp

theorem mergeStep_keys_nodup (acc : List (String × CycloneDxComponent) × List (String × SpdxPackage))
    (s : Sbom) (h1 : (mapKeys acc.1).Nodup) (h2 : (mapKeys acc.2).Nodup) :
    (mapKeys (mergeStep acc s).1).Nodup ∧ (mapKeys (mergeStep acc s).2).Nodup := by
  cases s with
  | cdx d =>
    by_cases hf : d.bomFormat == "CycloneDX" <;>
      simp only [mergeStep, hf, if_true, if_false]
    · exact ⟨keys_nodup_insertAbsentFold _ _ _ _ h1, h2⟩
    · exact ⟨h1, h2⟩
  | spdx d =>
    by_cases hf : d.spdxVersion == "SPDX-2.3" <;>
      simp only [mergeStep, hf, if_true, if_false]
    · exact ⟨h1, keys_nodup_insertAbsentFold _ _ _ _ h2⟩
    · exact ⟨h1, h2⟩

theorem foldl_mergeStep_cdx_has (sboms : List Sbom) :
    ∀ (acc : List (String × CycloneDxComponent) × List (String × SpdxPackage)) (k : String),
    (mapHas (sboms.foldl mergeStep acc).1 k = true) ↔
      (mapHas acc.1 k = true ∨ ∃ s ∈ sboms, k ∈ cdxDocKeys s) := by
  induction sboms with
  | nil => intro acc k; simp
  | cons s sboms ih =>
    intro acc k
    rw [List.foldl_cons, ih]
    rw [mergeStep_cdx_has]
    constructor
    · rintro ((h | h) | ⟨t, ht, hk⟩)
      · exact Or.inl h
      · exact Or.inr ⟨s, List.mem_cons_self _ _, h⟩
      · exact Or.inr ⟨t, List.mem_cons_of_mem _ ht, hk⟩
    · rintro (h | ⟨t, ht, hk⟩)
      · exact Or.inl (Or.inl h)
      · rcases List.mem_cons.mp ht with rfl | ht
        · exact Or.inl (Or.inr hk)
        · exact Or.inr ⟨t, ht, hk⟩

theorem foldl_mergeStep_spdx_has (sboms : List Sbom) :
    ∀ (acc : List (String × CycloneDxComponent) × List (String × SpdxPackage)) (k : String),
    (mapHas (sboms.foldl mergeStep acc).2 k = true) ↔
      (mapHas acc.2 k = true ∨ ∃ s ∈ sboms, k ∈ spdxDocKeys s) := by
  induction sboms with
  | nil => intro acc k; simp
  | cons s sboms ih =>
    intro acc k
    rw [List.foldl_cons, ih]
    rw [mergeStep_spdx_has]
    constructor
    · rintro ((h | h) | ⟨t, ht, hk⟩)
      · exact Or.inl h
      · exact Or.inr ⟨s, List.mem_cons_self _ _, h⟩
      · exact Or.inr ⟨t, List.mem_cons_of_mem _ ht, hk⟩
    · rintro (h | ⟨t, ht, hk⟩)
      · exact Or.inl (Or.inl h)
      · rcases List.mem_cons.mp ht with rfl | ht
        · exact Or.inl (Or.inr hk)
        · exact Or.inr ⟨t, ht, hk⟩

theorem foldl_mergeStep_cdx_mem (sboms : List Sbom) :
    ∀ (acc : List (String × CycloneDxComponent) × List (String × SpdxPackage)),
    (∀ p ∈ acc.1, p.1 = componentKey p.2.name p.2.version) →
    ∀ p ∈ (sboms.foldl mergeStep acc).1, p.1 = componentKey p.2.name p.2.version := by
  induction sboms with
  | nil => intro acc hacc p hp; exact hacc p hp
  | cons s sboms ih =>
    intro acc hacc p hp
    rw [List.foldl_cons] at hp
    refine ih _ ?_ p hp
    intro q hq
    rcases mergeStep_cdx_mem acc s q hq with h | h
    · exact hacc q h
    · exact h

theorem foldl_mergeStep_spdx_mem (sboms : List Sbom) :
    ∀ (acc : List (String × CycloneDxComponent) × List (String × SpdxPackage)),
    (∀ p ∈ acc.2, p.1 = componentKey p.2.name p.2.versionInfo) →
    ∀ p ∈ (sboms.foldl mergeStep acc).2, p.1 = componentKey p.2.name p.2.versionInfo := by
  induction sboms with
  | nil => intro acc hacc p hp; exact hacc p hp
  | cons s sboms ih =>
    intro acc hacc p hp
    rw [List.foldl_cons] at hp
    refine ih _ ?_ p hp
    intro q hq
    rcases mergeStep_spdx_mem acc s q hq with h | h
    · exact hacc q h
    · exact h

theorem foldl_mergeStep_keys_nodup (sboms : List Sbom) :
    ∀ (acc : List (String × CycloneDxComponent) × List (String × SpdxPackage)),
    (mapKeys acc.1).Nodup → (mapKeys acc.2).Nodup →
    (mapKeys (sboms.foldl mergeStep acc).1).Nodup ∧
      (mapKeys (sboms.foldl mergeStep acc).2).Nodup := by
  induction sboms with
  | nil => intro acc h1 h2; exact ⟨h1, h2⟩
  | cons s sboms ih =>
    intro acc h1 h2
    rw [List.foldl_cons]
    obtain ⟨h1', h2'⟩ := mergeStep_keys_nodup acc s h1 h2
    exact ih _ h1' h2'

theorem inputKeys_mem (sboms : List Sbom) (k : String) :
    k ∈ inputKeys sboms ↔ ∃ s ∈ sboms, (k ∈ cdxDocKeys s ∨ k ∈ spdxDocKeys s) := by
  unfold inputKeys
  rw [List.mem_flatten]
  constructor
  · rintro ⟨l, hl, hk⟩
    obtain ⟨s, hs, rfl⟩ := List.mem_map.mp hl
    rw [recognizedKeys_eq] at hk
    rcases List.mem_append.mp hk with h | h
    · exact ⟨s, hs, Or.inl h⟩
    · exact ⟨s, hs, Or.inr h⟩
  · rintro ⟨s, hs, h⟩
    refine ⟨recognizedKeys s, List.mem_map_of_mem _ hs, ?_⟩
    rw [recognizedKeys_eq]
    rcases h with h | h
    · exact List.mem_append.mpr (Or.inl h)
    · exact List.mem_append.mpr (Or.inr h)

/-! ## The indexed SPDX cross-population fold -/

theorem fillSpdx_aux_has (l : List (String × CycloneDxComponent)) :
    ∀ (m : List (String × SpdxPackage)) (n : Nat) (k : String),
    mapHas ((l.foldl (fun st kv => if !(mapHas st.1 kv.1) then
        (mapSet st.1 kv.1 (cycloneDxToSpdxPackage kv.2 st.2), st.2 + 1) else st) (m, n)).1) k =
      (mapHas m k || l.any (fun kv => kv.1 == k)) := by
  induction l with
  | nil => intro m n k; simp
  | cons kv l ih =>
    intro m n k
    rw [List.foldl_cons, List.any_cons]
    by_cases h : mapHas m kv.1
    · rw [if_neg (by simp [h]), ih]
      by_cases hxk : kv.1 = k
      · have h2 : mapHas m k = true := hxk ▸ h
        have h3 : (kv.1 == k) = true := by simpa [beq_iff_eq] using hxk
        rw [h2, h3]
        simp
      · rw [beq_eq_false_iff_ne.mpr hxk]
        simp
    · rw [Bool.not_eq_true] at h
      rw [if_pos (by simp [h])]
      show mapHas ((l.foldl _ (mapSet m kv.1 (cycloneDxToSpdxPackage kv.2 n), n + 1)).1) k = _
      rw [ih, mapSet_of_not_has h, mapHas_append]
      have h4 : mapHas [(kv.1, cycloneDxToSpdxPackage kv.2 n)] k = (kv.1 == k) := by
        simp [mapHas]
      rw [h4]
      cases mapHas m k <;> cases hc : (kv.1 == k) <;> simp

theorem fillSpdx_aux_mem (l : List (String × CycloneDxComponent)) :
    ∀ (m : List (String × SpdxPackage)) (n : Nat) (p : String × SpdxPackage),
    p ∈ (l.foldl (fun st kv => if !(mapHas st.1 kv.1) then
        (mapSet st.1 kv.1 (cycloneDxToSpdxPackage kv.2 st.2), st.2 + 1) else st) (m, n)).1 →
      p ∈ m ∨ ∃ kv ∈ l, ∃ j, p = (kv.1, cycloneDxToSpdxPackage kv.2 j) := by
  induction l with
  | nil => intro m n p h; exact Or.inl h
  | cons kv l ih =>
    intro m n p h
    rw [List.foldl_cons] at h
    by_cases hh : mapHas m kv.1
    · rw [if_neg (by simp [hh])] at h
      rcases ih _ _ _ h with h | ⟨q, hq, j, hpe⟩
      · exact Or.inl h
      · exact Or.inr ⟨q, List.mem_cons_of_mem _ hq, j, hpe⟩
    · rw [Bool.not_eq_true] at hh
      rw [if_pos (by simp [hh])] at h
      rcases ih _ _ _ h with h | ⟨q, hq, j, hpe⟩
      · rcases mem_mapSet h with h | h
        · exact Or.inl h
        · exact Or.inr ⟨kv, List.mem_cons_self _ _, n, h⟩
      · exact Or.inr ⟨q, List.mem_cons_of_mem _ hq, j, hpe⟩

theorem fillSpdx_aux_nodup (l : List (String × CycloneDxComponent)) :
    ∀ (m : List (String × SpdxPackage)) (n : Nat),
    (mapKeys m).Nodup →
    (mapKeys ((l.foldl (fun st kv => if !(mapHas st.1 kv.1) then
        (mapSet st.1 kv.1 (cycloneDxToSpdxPackage kv.2 st.2), st.2 + 1) else st) (m, n)).1)).Nodup := by
  induction l with
  | nil => intro m n h; exact h
  | cons kv l ih =>
    intro m n h
    rw [List.foldl_cons]
    by_cases hh : mapHas m kv.1
    · rw [if_neg (by simp [hh])]; exact ih _ _ h
    · rw [Bool.not_eq_true] at hh
      rw [if_pos (by simp [hh])]
      refine ih _ _ ?_
      rw [mapSet_of_not_has hh, mapKeys_append, List.nodup_append]
      refine ⟨h, List.nodup_singleton _, ?_⟩
      intro a ha hb
      have hak : a = kv.1 := by simpa [mapKeys] using hb
      rw [hak] at ha
      exact absurd ((mapHas_iff_mem_keys m kv.1).mpr ha) (by simp [hh])

/-! ## Field facts about the converters -/

theorem spdxToCdx_name (q : SpdxPackage) : (spdxToCycloneDxComponent q).name = q.name := rfl

theorem spdxToCdx_version (q : SpdxPackage) :
    (spdxToCycloneDxComponent q).version = q.versionInfo := rfl

theorem cdxToSpdx_name (c : CycloneDxComponent) (i : Nat) :
    (cycloneDxToSpdxPackage c i).name = c.name := rfl

theorem cdxToSpdx_versionInfo (c : CycloneDxComponent) (i : Nat) :
    (cycloneDxToSpdxPackage c i).versionInfo = c.version := rfl

theorem valuesKeys_cdx (m : List (String × CycloneDxComponent))
    (hco : ∀ p ∈ m, p.1 = componentKey p.2.name p.2.version) :
    (mapValues m).map (fun c => componentKey c.name c.version) = mapKeys m := by
  unfold mapValues mapKeys
  rw [List.map_map]
  exact List.map_congr_left (fun p hp => (hco p hp).symm)

theorem valuesKeys_spdx (m : List (String × SpdxPackage))
    (hco : ∀ p ∈ m, p.1 = componentKey p.2.name p.2.versionInfo) :
    (mapValues m).map (fun p => componentKey p.name p.versionInfo) = mapKeys m := by
  unfold mapValues mapKeys
  rw [List.map_map]
  exact List.map_congr_left (fun p hp => (hco p hp).symm)

/-! ## Claim C1 -/

/-- C1: for every non-empty input list and either output format, the merged
document's component/package list has exactly one entry per distinct
`name@version` key occurring across the recognized input documents:
the entry keys are pairwise distinct and range over exactly the input keys
(so duplicates collapse and cross-format entries are unioned). -/
theorem merge_dedup_cross_format_union (cfg : Config) (ts uuid : String)
    (sboms : List Sbom) (format : SbomFormat) (h : sboms ≠ []) :
    ∃ doc meta, sbomMerge cfg ts uuid sboms format = .success doc meta ∧
      (outputKeys doc).Nodup ∧ (∀ k, k ∈ outputKeys doc ↔ k ∈ inputKeys sboms) := by
  have hlen : (sboms.length == 0) = false := by
    cases sboms with
    | nil => exact absurd rfl h
    | cons a l => rfl
  have hnodup := foldl_mergeStep_keys_nodup sboms ([], []) List.nodup_nil List.nodup_nil
  have hco1 : ∀ p ∈ (mergeAccumulate sboms).1, p.1 = componentKey p.2.name p.2.version :=
    foldl_mergeStep_cdx_mem sboms ([], []) (by intro p hp; cases hp)
  have hco2 : ∀ p ∈ (mergeAccumulate sboms).2, p.1 = componentKey p.2.name p.2.versionInfo :=
    foldl_mergeStep_spdx_mem sboms ([], []) (by intro p hp; cases hp)
  have hhas1 : ∀ k, mapHas (mergeAccumulate sboms).1 k = true ↔
      ∃ s ∈ sboms, k ∈ cdxDocKeys s := by
    intro k
    unfold mergeAccumulate
    rw [foldl_mergeStep_cdx_has]
    simp [mapHas]
  have hhas2 : ∀ k, mapHas (mergeAccumulate sboms).2 k = true ↔
      ∃ s ∈ sboms, k ∈ spdxDocKeys s := by
    intro k
    unfold mergeAccumulate
    rw [foldl_mergeStep_spdx_has]
    simp [mapHas]
  cases format with
  | cyclonedx =>
    refine ⟨.cdx (mergedCdxDoc cfg ts uuid (mergeAccumulate sboms).1 (mergeAccumulate sboms).2),
      successMeta ts, ?_, ?_, ?_⟩
    · unfold sbomMerge
      rw [hlen]
      rfl
    · have hFco : ∀ p ∈ mergeFillCdx (mergeAccumulate sboms).1 (mergeAccumulate sboms).2,
          p.1 = componentKey p.2.name p.2.version := by
        intro p hp
        rcases mem_insertAbsentFold _ _ _ _ _ hp with hm | ⟨kv, hkv, hpe⟩
        · exact hco1 p hm
        · subst hpe
          rw [spdxToCdx_name, spdxToCdx_version]
          exact hco2 kv hkv
      have hkeys : outputKeys (.cdx (mergedCdxDoc cfg ts uuid (mergeAccumulate sboms).1
          (mergeAccumulate sboms).2)) =
          mapKeys (mergeFillCdx (mergeAccumulate sboms).1 (mergeAccumulate sboms).2) :=
        valuesKeys_cdx _ hFco
      rw [hkeys]
      exact keys_nodup_insertAbsentFold _ _ _ _ hnodup.1
    · intro k
      have hFco : ∀ p ∈ mergeFillCdx (mergeAccumulate sboms).1 (mergeAccumulate sboms).2,
          p.1 = componentKey p.2.name p.2.version := by
        intro p hp
        rcases mem_insertAbsentFold _ _ _ _ _ hp with hm | ⟨kv, hkv, hpe⟩
        · exact hco1 p hm
        · subst hpe
          rw [spdxToCdx_name, spdxToCdx_version]
          exact hco2 kv hkv
      have hkeys : outputKeys (.cdx (mergedCdxDoc cfg ts uuid (mergeAccumulate sboms).1
          (mergeAccumulate sboms).2)) =
          mapKeys (mergeFillCdx (mergeAccumulate sboms).1 (mergeAccumulate sboms).2) :=
        valuesKeys_cdx _ hFco
      rw [hkeys]
      rw [← mapHas_iff_mem_keys]
      unfold mergeFillCdx
      rw [mapHas_insertAbsentFold]
      rw [inputKeys_mem]
      rw [Bool.or_eq_true]
      have hany : ((mergeAccumulate sboms).2.any (fun kv => kv.1 == k) = true) ↔
          ∃ s ∈ sboms, k ∈ spdxDocKeys s := hhas2 k
      constructor
      · rintro (h1 | h1)
        · obtain ⟨s, hs, hk⟩ := (hhas1 k).mp h1
          exact ⟨s, hs, Or.inl hk⟩
        · obtain ⟨s, hs, hk⟩ := hany.mp h1
          exact ⟨s, hs, Or.inr hk⟩
      · rintro ⟨s, hs, hk | hk⟩
        · exact Or.inl ((hhas1 k).mpr ⟨s, hs, hk⟩)
        · exact Or.inr (hany.mpr ⟨s, hs, hk⟩)
  | spdx =>
    refine ⟨.spdx (mergedSpdxDoc cfg ts uuid (mergeAccumulate sboms).1 (mergeAccumulate sboms).2),
      successMeta ts, ?_, ?_, ?_⟩
    · unfold sbomMerge
      rw [hlen]
      rfl
    · have hFco : ∀ p ∈ mergeFillSpdx (mergeAccumulate sboms).1 (mergeAccumulate sboms).2,
          p.1 = componentKey p.2.name p.2.versionInfo := by
        intro p hp
        rcases fillSpdx_aux_mem _ _ _ _ hp with hm | ⟨kv, hkv, j, hpe⟩
        · exact hco2 p hm
        · subst hpe
          rw [cdxToSpdx_name, cdxToSpdx_versionInfo]
          exact hco1 kv hkv
      have hkeys : outputKeys (.spdx (mergedSpdxDoc cfg ts uuid (mergeAccumulate sboms).1
          (mergeAccumulate sboms).2)) =
          mapKeys (mergeFillSpdx (mergeAccumulate sboms).1 (mergeAccumulate sboms).2) :=
        valuesKeys_spdx _ hFco
      rw [hkeys]
      exact fillSpdx_aux_nodup _ _ _ hnodup.2
    · intro k
      have hFco : ∀ p ∈ mergeFillSpdx (mergeAccumulate sboms).1 (mergeAccumulate sboms).2,
          p.1 = componentKey p.2.name p.2.versionInfo := by
        intro p hp
        rcases fillSpdx_aux_mem _ _ _ _ hp with hm | ⟨kv, hkv, j, hpe⟩
        · exact hco2 p hm
        · subst hpe
          rw [cdxToSpdx_name, cdxToSpdx_versionInfo]
          exact hco1 kv hkv
      have hkeys : outputKeys (.spdx (mergedSpdxDoc cfg ts uuid (mergeAccumulate sboms).1
          (mergeAccumulate sboms).2)) =
          mapKeys (mergeFillSpdx (mergeAccumulate sboms).1 (mergeAccumulate sboms).2) :=
        valuesKeys_spdx _ hFco
      rw [hkeys]
      rw [← mapHas_iff_mem_keys]
      unfold mergeFillSpdx
      rw [fillSpdx_aux_has]
      rw [inputKeys_mem]
      rw [Bool.or_eq_true]
      have hany : ((mergeAccumulate sboms).1.any (fun kv => kv.1 == k) = true) ↔
          ∃ s ∈ sboms, k ∈ cdxDocKeys s := hhas1 k
      constructor
      · rintro (h1 | h1)
        · obtain ⟨s, hs, hk⟩ := (hhas2 k).mp h1
          exact ⟨s, hs, Or.inr hk⟩
        · obtain ⟨s, hs, hk⟩ := hany.mp h1
          exact ⟨s, hs, Or.inl hk⟩
      · rintro ⟨s, hs, hk | hk⟩
        · exact Or.inr (hany.mpr ⟨s, hs, hk⟩)
        · exact Or.inl ((hhas2 k).mpr ⟨s, hs, hk⟩)

/-! ## Characterization of the diff lists -/

theorem mem_diff_added_iff (oldS newS : Sbom) (e : ComponentDiff) :
    e ∈ (sbomDiffData oldS newS).added ↔
      ∃ kv ∈ normalizeComponents newS,
        mapGet (normalizeComponents oldS) kv.1 = none ∧
        e = { name := kv.2.name, ecosystem := kv.2.ecosystem, purl := kv.2.purl,
              newVersion := some kv.2.version } := by
  simp only [sbomDiffData]
  rw [mem_insertionSort_iff, List.mem_filterMap]
  constructor
  · rintro ⟨kv, hkv, hf⟩
    refine ⟨kv, hkv, ?_⟩
    cases hg : mapGet (normalizeComponents oldS) kv.1 with
    | none => rw [hg] at hf; exact ⟨rfl, (Option.some.injEq _ _ ▸ hf).symm⟩
    | some o => rw [hg] at hf; cases hf
  · rintro ⟨kv, hkv, hg, rfl⟩
    exact ⟨kv, hkv, by rw [hg]⟩

theorem mem_diff_version_changed_iff (oldS newS : Sbom) (e : ComponentDiff) :
    e ∈ (sbomDiffData oldS newS).version_changed ↔
      ∃ kv ∈ normalizeComponents newS, ∃ o,
        mapGet (normalizeComponents oldS) kv.1 = some o ∧
        o.version ≠ kv.2.version ∧
        e = { name := kv.2.name, ecosystem := kv.2.ecosystem, purl := kv.2.purl,
              oldVersion := some o.version, newVersion := some kv.2.version } := by
  simp only [sbomDiffData]
  rw [mem_insertionSort_iff, List.mem_filterMap]
  constructor
  · rintro ⟨kv, hkv, hf⟩
    cases hg : mapGet (normalizeComponents oldS) kv.1 with
    | none => rw [hg] at hf; cases hf
    | some o =>
      simp only [hg] at hf
      by_cases hv : o.version != kv.2.version
      · rw [if_pos hv] at hf
        exact ⟨kv, hkv, o, hg, by simpa using hv, (Option.some.injEq _ _ ▸ hf).symm⟩
      · rw [if_neg hv] at hf; cases hf
  · rintro ⟨kv, hkv, o, hg, hv, rfl⟩
    refine ⟨kv, hkv, ?_⟩
    simp only [hg]
    rw [if_pos (by simpa using hv)]

theorem mem_diff_removed_iff (oldS newS : Sbom) (e : ComponentDiff) :
    e ∈ (sbomDiffData oldS newS).removed ↔
      ∃ kv ∈ normalizeComponents oldS,
        mapHas (normalizeComponents newS) kv.1 = false ∧
        e = { name := kv.2.name, ecosystem := kv.2.ecosystem, purl := kv.2.purl,
              oldVersion := some kv.2.version } := by
  simp only [sbomDiffData]
  rw [mem_insertionSort_iff, List.mem_filterMap]
  constructor
  · rintro ⟨kv, hkv, hf⟩
    by_cases hh : mapHas (normalizeComponents newS) kv.1
    · rw [if_neg (by simp [hh])] at hf; cases hf
    · rw [Bool.not_eq_true] at hh
      rw [if_pos (by simp [hh])] at hf
      exact ⟨kv, hkv, hh, (Option.some.injEq _ _ ▸ hf).symm⟩
  · rintro ⟨kv, hkv, hh, rfl⟩
    exact ⟨kv, hkv, by rw [show (!mapHas (normalizeComponents newS) kv.1) = true by simp [hh],
      if_pos rfl]⟩

theorem mem_normalize_mapGet {s : Sbom} {kv : String × NormalizedComponent}
    (h : kv ∈ normalizeComponents s) : mapGet (normalizeComponents s) kv.1 = some kv.2 := by
  refine (mem_iff_mapGet_of_nodup (normalize_keys_nodup s) kv.1 kv.2).mp ?_
  rwa [Prod.mk.eta]

/-! ## Claim C2 -/

/-- C2: diff classifies every name exactly: new-only names are added with
the new version, names in both with differing versions are version_changed
with both versions, old-only names are removed with the old version, and
names in both with equal versions appear in none of the three lists (which
follows from the three characterizations). -/
theorem diff_classifies_every_name (oldS newS : Sbom) :
    (∀ name, (∃ e ∈ (sbomDiffData oldS newS).added, e.name = name) ↔
        ((mapGet (normalizeComponents newS) name).isSome ∧
          mapGet (normalizeComponents oldS) name = none)) ∧
    (∀ e ∈ (sbomDiffData oldS newS).added, ∃ r,
        mapGet (normalizeComponents newS) e.name = some r ∧
        e.newVersion = some r.version ∧ e.oldVersion = none) ∧
    (∀ name, (∃ e ∈ (sbomDiffData oldS newS).version_changed, e.name = name) ↔
        (∃ r o, mapGet (normalizeComponents newS) name = some r ∧
          mapGet (normalizeComponents oldS) name = some o ∧ o.version ≠ r.version)) ∧
    (∀ e ∈ (sbomDiffData oldS newS).version_changed, ∃ r o,
        mapGet (normalizeComponents newS) e.name = some r ∧
        mapGet (normalizeComponents oldS) e.name = some o ∧
        e.oldVersion = some o.version ∧ e.newVersion = some r.version) ∧
    (∀ name, (∃ e ∈ (sbomDiffData oldS newS).removed, e.name = name) ↔
        ((mapGet (normalizeComponents oldS) name).isSome ∧
          mapGet (normalizeComponents newS) name = none)) ∧
    (∀ e ∈ (sbomDiffData oldS newS).removed, ∃ o,
        mapGet (normalizeComponents oldS) e.name = some o ∧
        e.oldVersion = some o.version ∧ e.newVersion = none) := by
  refine ⟨?_, ?_, ?_, ?_, ?_, ?_⟩
  · intro name
    constructor
    · rintro ⟨e, he, rfl⟩
      obtain ⟨kv, hkv, hg, rfl⟩ := (mem_diff_added_iff oldS newS e).mp he
      have hname : kv.2.name = kv.1 := (normalize_mem_inv newS kv hkv).1
      simp only [hname]
      exact ⟨by rw [mem_normalize_mapGet hkv]; rfl, hg⟩
    · rintro ⟨hsome, hnone⟩
      obtain ⟨r, hr⟩ := Option.isSome_iff_exists.mp hsome
      have hmem : (name, r) ∈ normalizeComponents newS := mapGet_eq_some_mem hr
      have hname : r.name = name := (mapGet_normalize_inv hr).1
      refine ⟨⟨r.name, r.ecosystem, r.purl, none, some r.version⟩, ?_, hname⟩
      exact (mem_diff_added_iff oldS newS _).mpr ⟨(name, r), hmem, hnone, rfl⟩
  · intro e he
    obtain ⟨kv, hkv, hg, rfl⟩ := (mem_diff_added_iff oldS newS e).mp he
    have hname : kv.2.name = kv.1 := (normalize_mem_inv newS kv hkv).1
    refine ⟨kv.2, ?_, rfl, rfl⟩
    show mapGet (normalizeComponents newS) kv.2.name = some kv.2
    rw [hname]
    exact mem_normalize_mapGet hkv
  · intro name
    constructor
    · rintro ⟨e, he, rfl⟩
      obtain ⟨kv, hkv, o, hg, hv, rfl⟩ := (mem_diff_version_changed_iff oldS newS e).mp he
      have hname : kv.2.name = kv.1 := (normalize_mem_inv newS kv hkv).1
      simp only [hname]
      exact ⟨kv.2, o, mem_normalize_mapGet hkv, hg, hv⟩
    · rintro ⟨r, o, hr, ho, hv⟩
      have hmem : (name, r) ∈ normalizeComponents newS := mapGet_eq_some_mem hr
      have hname : r.name = name := (mapGet_normalize_inv hr).1
      refine ⟨⟨r.name, r.ecosystem, r.purl, some o.version, some r.version⟩, ?_, hname⟩
      exact (mem_diff_version_changed_iff oldS newS _).mpr ⟨(name, r), hmem, o, ho, hv, rfl⟩
  · intro e he
    obtain ⟨kv, hkv, o, hg, hv, rfl⟩ := (mem_diff_version_changed_iff oldS newS e).mp he
    have hname : kv.2.name = kv.1 := (normalize_mem_inv newS kv hkv).1
    refine ⟨kv.2, o, ?_, ?_, rfl, rfl⟩
    · show mapGet (normalizeComponents newS) kv.2.name = some kv.2
      rw [hname]
      exact mem_normalize_mapGet hkv
    · show mapGet (normalizeComponents oldS) kv.2.name = some o
      rw [hname]
      exact hg
  · intro name
    constructor
    · rintro ⟨e, he, rfl⟩
      obtain ⟨kv, hkv, hh, rfl⟩ := (mem_diff_removed_iff oldS newS e).mp he
      have hname : kv.2.name = kv.1 := (normalize_mem_inv oldS kv hkv).1
      simp only [hname]
      exact ⟨by rw [mem_normalize_mapGet hkv]; rfl, (mapGet_eq_none_iff _ _).mpr hh⟩
    · rintro ⟨hsome, hnone⟩
      obtain ⟨o, ho⟩ := Option.isSome_iff_exists.mp hsome
      have hmem : (name, o) ∈ normalizeComponents oldS := mapGet_eq_some_mem ho
      have hname : o.name = name := (mapGet_normalize_inv ho).1
      refine ⟨⟨o.name, o.ecosystem, o.purl, some o.version, none⟩, ?_, hname⟩
      exact (mem_diff_removed_iff oldS newS _).mpr
        ⟨(name, o), hmem, (mapGet_eq_none_iff _ _).mp hnone, rfl⟩
  · intro e he
    obtain ⟨kv, hkv, hh, rfl⟩ := (mem_diff_removed_iff oldS newS e).mp he
    have hname : kv.2.name = kv.1 := (normalize_mem_inv oldS kv hkv).1
    refine ⟨kv.2, ?_, rfl, rfl⟩
    show mapGet (normalizeComponents oldS) kv.2.name = some kv.2
    rw [hname]
    exact mem_normalize_mapGet hkv

/-! ## Concrete fixture documents for witnesses and counterexamples -/

/-- A one-component CycloneDX document. -/
def exCdxDoc : CycloneDxSbom :=
  { bomFormat := "CycloneDX", specVersion := "1.5", version := 1,
    metadata := { timestamp := "2024-01-01T00:00:00.000Z" },
    components := [{ type := "library", name := "lodash", version := "4.17.21",
                     purl := some "pkg:npm/lodash@4.17.21" }] }

/-- A CycloneDX document with two components sharing one name. -/
def dupNameDoc : CycloneDxSbom :=
  { bomFormat := "CycloneDX", specVersion := "1.5", version := 1,
    metadata := { timestamp := "2024-01-01T00:00:00.000Z" },
    components := [{ type := "library", name := "a", version := "1" },
                   { type := "library", name := "a", version := "2" }] }

/-- A document whose shape matches neither format tag. -/
def unknownDoc : CycloneDxSbom :=
  { bomFormat := "Unknown", specVersion := "1.5", version := 1,
    metadata := { timestamp := "2024-01-01T00:00:00.000Z" },
    components := [{ type := "library", name := "ghost", version := "9" }] }

/-- Two SPDX documents carrying the same SPDXID on different name@version
keys. -/
def spdxDupIdDoc1 : SpdxSbom :=
  { spdxVersion := "SPDX-2.3", dataLicense := "CC0-1.0", SPDXID := "SPDXRef-DOCUMENT",
    name := "Doc1", documentNamespace := "https://spdx.org/spdxdocs/d1",
    creationInfo := { created := "2024-01-01T00:00:00.000Z", creators := ["Tool: t"] },
    packages := [{ name := "a", SPDXID := "SPDXRef-Package-shared-0",
                   downloadLocation := "NOASSERTION", versionInfo := "1" }] }

def spdxDupIdDoc2 : SpdxSbom :=
  { spdxVersion := "SPDX-2.3", dataLicense := "CC0-1.0", SPDXID := "SPDXRef-DOCUMENT",
    name := "Doc2", documentNamespace := "https://spdx.org/spdxdocs/d2",
    creationInfo := { created := "2024-01-01T00:00:00.000Z", creators := ["Tool: t"] },
    packages := [{ name := "b", SPDXID := "SPDXRef-Package-shared-0",
                   downloadLocation := "NOASSERTION", versionInfo := "1" }] }

/-- Old/new documents for the diff fixtures: same name, different versions
and different purls. -/
def oldPurlDoc : CycloneDxSbom :=
  { bomFormat := "CycloneDX", specVersion := "1.5", version := 1,
    metadata := { timestamp := "2024-01-01T00:00:00.000Z" },
    components := [{ type := "library", name := "a", version := "1",
                     purl := some "pkg:old/a@1" }] }

def newPurlDoc : CycloneDxSbom :=
  { bomFormat := "CycloneDX", specVersion := "1.5", version := 1,
    metadata := { timestamp := "2024-01-02T00:00:00.000Z" },
    components := [{ type := "library", name := "a", version := "2",
                     purl := some "pkg:npm/a@2" }] }

/-- A component whose purl is present and non-empty. -/
def exComponent : CycloneDxComponent :=
  { type := "library", name := "lodash", version := "4.17.21",
    purl := some "pkg:npm/lodash@4.17.21" }

/-! ## Claim C3 -/

/-- C3 (amended): converting a CycloneDX component to an SPDX package and
back preserves name, version and purl exactly, for every component whose
purl is absent or non-empty; a present-but-empty purl (falsy in JS) is
dropped to absent. -/
theorem roundtrip_preserves_fields (c : CycloneDxComponent) (i : Nat)
    (h : c.purl ≠ some "") :
    (spdxToCycloneDxComponent (cycloneDxToSpdxPackage c i)).name = c.name ∧
    (spdxToCycloneDxComponent (cycloneDxToSpdxPackage c i)).version = c.version ∧
    (spdxToCycloneDxComponent (cycloneDxToSpdxPackage c i)).purl = c.purl := by
  refine ⟨rfl, rfl, ?_⟩
  cases hp : c.purl with
  | none =>
    simp [spdxToCycloneDxComponent, cycloneDxToSpdxPackage, optTruthy, hp]
  | some p =>
    have hpne : (p == "") = false := by
      rw [beq_eq_false_iff_ne]
      intro he
      exact h (by rw [hp, he])
    simp [spdxToCycloneDxComponent, cycloneDxToSpdxPackage, optTruthy, hp, hpne]

/-- C3 counterexample: a component with `purl = some ""` (present but
empty, hence falsy) round-trips to an absent purl, so the round trip does
not preserve purl exactly for every optional purl. -/
theorem roundtrip_empty_purl_counterexample :
    (spdxToCycloneDxComponent (cycloneDxToSpdxPackage
      { type := "library", name := "a", version := "1", purl := some "" } 0)).purl = none ∧
    (some "" : Option String) ≠ none := by
  constructor
  · rfl
  · decide

/-- Witness for C3 at a concrete component and index. -/
theorem roundtrip_preserves_fields_witness :
    exComponent.purl ≠ some "" ∧
    ((spdxToCycloneDxComponent (cycloneDxToSpdxPackage exComponent 0)).name = exComponent.name ∧
     (spdxToCycloneDxComponent (cycloneDxToSpdxPackage exComponent 0)).version = exComponent.version ∧
     (spdxToCycloneDxComponent (cycloneDxToSpdxPackage exComponent 0)).purl = exComponent.purl) :=
  ⟨by decide, roundtrip_preserves_fields exComponent 0 (by decide)⟩

/-! ## Claim C4 -/

/-- C4 (amended): within one document, merge's per-document extraction
keeps the FIRST occurrence per `name@version` key, while diff's
per-document normalization (keyed by name alone, built with unconditional
`Map.set`) keeps the LAST occurrence per name. -/
theorem duplicate_key_resolution (d : CycloneDxSbom) (d' : SpdxSbom) (k n : String) :
    mapGet (extractCycloneDxComponents d) k =
      d.components.find? (fun c => componentKey c.name c.version == k) ∧
    mapGet (extractSpdxPackages d') k =
      d'.packages.find? (fun p => componentKey p.name p.versionInfo == k) ∧
    mapGet (normalizeCycloneDxComponents d) n =
      (d.components.reverse.find? (fun c => c.name == n)).map normalizeCdxComponent ∧
    mapGet (normalizeSpdxPackages d') n =
      (d'.packages.reverse.find? (fun p => p.name == n)).map normalizeSpdxPackage := by
  refine ⟨?_, ?_, ?_, ?_⟩
  · unfold extractCycloneDxComponents
    rw [mapGet_insertAbsentFold]
    cases d.components.find? (fun c => componentKey c.name c.version == k) <;>
      simp [mapGet]
  · unfold extractSpdxPackages
    rw [mapGet_insertAbsentFold]
    cases d'.packages.find? (fun p => componentKey p.name p.versionInfo == k) <;>
      simp [mapGet]
  · unfold normalizeCycloneDxComponents
    rw [mapGet_setFold]
    cases d.components.reverse.find? (fun c => c.name == n) <;> simp [mapGet]
  · unfold normalizeSpdxPackages
    rw [mapGet_setFold]
    cases d'.packages.reverse.find? (fun p => p.name == n) <;> simp [mapGet]

/-- C4 counterexample: a document listing `a@1` then `a@2` normalizes (for
diff) to the record of the LAST occurrence, version `2`, not the first
occurrence's version `1` as the claim states. -/
theorem diff_normalization_last_wins_counterexample :
    (mapGet (normalizeComponents (Sbom.cdx dupNameDoc)) "a").map
        (fun r => r.version) = some "2" ∧
    (some "2" : Option String) ≠ some "1" := by
  constructor
  · decide
  · decide

/-! ## Claim C5 -/

/-- C5 (amended): every SPDX document produced by the builder has pairwise
distinct package SPDXIDs (the decimal index suffix after the final dash is
injective); merge output offers no such guarantee, because packages taken
from input documents keep their original SPDXIDs verbatim. -/
theorem builder_spdxids_distinct (cfg : Config) (ts uuid : String) (deps : List Dependency) :
    ((createSpdxSbom cfg ts uuid deps).packages.map (fun p => p.SPDXID)).Nodup := by
  have hpkgs : (createSpdxSbom cfg ts uuid deps).packages
      = deps.enum.map (fun p => depToSpdxPackage p.2 p.1) := rfl
  rw [hpkgs, List.map_map]
  have hfstnodup : (deps.enum.map Prod.fst).Nodup := by
    rw [List.enum_map_fst]
    exact List.nodup_range _
  have henumnodup : deps.enum.Nodup := List.Nodup.of_map Prod.fst hfstnodup
  refine List.Nodup.map_on ?_ henumnodup
  intro x hx y hy hxy
  have hids : ("SPDXRef-Package-" ++ sanitizeSpdxId x.2.name) ++ "-" ++ natToString x.1
      = ("SPDXRef-Package-" ++ sanitizeSpdxId y.2.name) ++ "-" ++ natToString y.1 := hxy
  have hidx : x.1 = y.1 := spdxId_index_inj hids
  exact List.inj_on_of_nodup_map hfstnodup hx hy hidx

/-- C5 counterexample: merging two SPDX documents whose packages carry the
same SPDXID under different `name@version` keys yields an SPDX document
with duplicate SPDXIDs. -/
theorem merge_spdxids_collision_counterexample :
    responseSpdxIds (sbomMerge {} "t" "u"
        [Sbom.spdx spdxDupIdDoc1, Sbom.spdx spdxDupIdDoc2] .spdx)
      = ["SPDXRef-Package-shared-0", "SPDXRef-Package-shared-0"] ∧
    ¬ (responseSpdxIds (sbomMerge {} "t" "u"
        [Sbom.spdx spdxDupIdDoc1, Sbom.spdx spdxDupIdDoc2] .spdx)).Nodup := by
  constructor
  · decide
  · decide

/-! ## Claim C6 -/

/-- C6: merging an empty document list returns the INVALID_INPUT failure
envelope (which structurally carries no document) without any processing. -/
theorem merge_empty_invalid_input (cfg : Config) (ts uuid : String) (format : SbomFormat) :
    sbomMerge cfg ts uuid [] format =
      .failure { code := .INVALID_INPUT,
                 message := "At least one SBOM is required for merging" }
        { retrieved_at := ts } := rfl

/-! ## Claim C7 -/

/-- C7: the three lists returned by sbomDiff are sorted by component name
in ascending (code-point lexicographic) order, for every pair of input
documents. -/
theorem diff_lists_sorted_by_name (ts : String) (oldS newS : Sbom) :
    ∃ d m, sbomDiff ts oldS newS = .success d m ∧
      d.added.Pairwise (fun a b => a.name ≤ b.name) ∧
      d.removed.Pairwise (fun a b => a.name ≤ b.name) ∧
      d.version_changed.Pairwise (fun a b => a.name ≤ b.name) := by
  refine ⟨sbomDiffData oldS newS, successMeta ts, rfl, ?_, ?_, ?_⟩ <;>
    · simp only [sbomDiffData]
      exact insertionSort_names_sorted _

/-! ## Claim C8 -/

/-- C8: a document recognized as neither CycloneDX nor SPDX raises no
error: it normalizes to the empty record set, leaves merge accumulation
untouched (so it contributes nothing to the merge output), merge over any
list containing it still succeeds, and diff always succeeds. -/
theorem unrecognized_documents_excluded (s : Sbom)
    (h : isCycloneDxSbom s = false ∧ isSpdxSbom s = false) :
    normalizeComponents s = [] ∧
    (∀ acc, mergeStep acc s = acc) ∧
    (∀ pre post : List Sbom, mergeAccumulate (pre ++ s :: post) = mergeAccumulate (pre ++ post)) ∧
    (∀ (cfg : Config) (ts uuid : String) (pre post : List Sbom) (format : SbomFormat),
      ∃ doc meta, sbomMerge cfg ts uuid (pre ++ s :: post) format = .success doc meta) ∧
    (∀ (ts : String) (x : Sbom), ∃ d m, sbomDiff ts s x = ApiResponse.success d m) := by
  obtain ⟨h1, h2⟩ := h
  have hstep : ∀ acc, mergeStep acc s = acc := by
    intro acc
    cases s with
    | cdx d =>
      simp only [isCycloneDxSbom] at h1
      simp [mergeStep, h1]
    | spdx d =>
      simp only [isSpdxSbom] at h2
      simp [mergeStep, h2]
  refine ⟨?_, hstep, ?_, ?_, ?_⟩
  · cases s with
    | cdx d =>
      simp only [isCycloneDxSbom] at h1
      simp [normalizeComponents, h1]
    | spdx d =>
      simp only [isSpdxSbom] at h2
      simp [normalizeComponents, h2]
  · intro pre post
    unfold mergeAccumulate
    rw [List.foldl_append, List.foldl_append, List.foldl_cons, hstep]
  · intro cfg ts uuid pre post format
    have hne : (((pre ++ s :: post) : List Sbom).length == 0) = false := by
      rw [beq_eq_false_iff_ne]
      simp
    cases format with
    | cyclonedx =>
      refine ⟨.cdx (mergedCdxDoc cfg ts uuid (mergeAccumulate (pre ++ s :: post)).1
        (mergeAccumulate (pre ++ s :: post)).2), successMeta ts, ?_⟩
      unfold sbomMerge
      rw [hne]
      rfl
    | spdx =>
      refine ⟨.spdx (mergedSpdxDoc cfg ts uuid (mergeAccumulate (pre ++ s :: post)).1
        (mergeAccumulate (pre ++ s :: post)).2), successMeta ts, ?_⟩
      unfold sbomMerge
      rw [hne]
      rfl
  · intro ts x
    exact ⟨_, _, rfl⟩

/-- Witness for C8 at a concrete unrecognized document. -/
theorem unrecognized_documents_excluded_witness :
    (isCycloneDxSbom (Sbom.cdx unknownDoc) = false ∧ isSpdxSbom (Sbom.cdx unknownDoc) = false) ∧
    (normalizeComponents (Sbom.cdx unknownDoc) = [] ∧
     (∀ acc, mergeStep acc (Sbom.cdx unknownDoc) = acc) ∧
     (∀ pre post : List Sbom, mergeAccumulate (pre ++ (Sbom.cdx unknownDoc) :: post) =
        mergeAccumulate (pre ++ post)) ∧
     (∀ (cfg : Config) (ts uuid : String) (pre post : List Sbom) (format : SbomFormat),
       ∃ doc meta, sbomMerge cfg ts uuid (pre ++ (Sbom.cdx unknownDoc) :: post) format =
         .success doc meta) ∧
     (∀ (ts : String) (x : Sbom), ∃ d m, sbomDiff ts (Sbom.cdx unknownDoc) x =
        ApiResponse.success d m)) :=
  ⟨by decide, unrecognized_documents_excluded (Sbom.cdx unknownDoc) (by decide)⟩

/-! ## Claim C9 -/

/-- C9: with the operation timestamp injected as an ISO-8601 string (as
`Date.prototype.toISOString` always produces), every success envelope of
the three operations carries `meta.source = "sbom-tools"` and an ISO-8601
`meta.retrieved_at`, and every failure envelope (which structurally has no
data field) carries an error code from the defined set whose name is
non-empty. -/
theorem envelope_invariant_ops (ts : String) (h : isIso8601 ts = true) :
    (∀ (cfg : Config) (uuid : String) (deps : List Dependency) (format : SbomFormat),
      envelopeOk (sbomFromDependencies cfg ts uuid deps format)) ∧
    (∀ (cfg : Config) (uuid : String) (sboms : List Sbom) (format : SbomFormat),
      envelopeOk (sbomMerge cfg ts uuid sboms format)) ∧
    (∀ oldS newS : Sbom, envelopeOk (sbomDiff ts oldS newS)) := by
  refine ⟨?_, ?_, ?_⟩
  · intro cfg uuid deps format
    cases format with
    | cyclonedx => exact ⟨rfl, h⟩
    | spdx => exact ⟨rfl, h⟩
  · intro cfg uuid sboms format
    cases sboms with
    | nil =>
      show envelopeOk (ApiResponse.failure
        { code := .INVALID_INPUT, message := "At least one SBOM is required for merging" }
        { retrieved_at := ts })
      refine ⟨?_, ?_⟩
      · simp [definedErrorCodes]
      · decide
    | cons a l =>
      have hne : (((a :: l) : List Sbom).length == 0) = false := rfl
      unfold sbomMerge
      rw [hne]
      cases format with
      | cyclonedx => exact ⟨rfl, h⟩
      | spdx => exact ⟨rfl, h⟩
  · intro oldS newS
    exact ⟨rfl, h⟩

/-- Witness for C9 at a concrete ISO-8601 timestamp. -/
theorem envelope_invariant_ops_witness :
    isIso8601 "2026-01-01T12:00:00.000Z" = true ∧
    ((∀ (cfg : Config) (uuid : String) (deps : List Dependency) (format : SbomFormat),
       envelopeOk (sbomFromDependencies cfg "2026-01-01T12:00:00.000Z" uuid deps format)) ∧
     (∀ (cfg : Config) (uuid : String) (sboms : List Sbom) (format : SbomFormat),
       envelopeOk (sbomMerge cfg "2026-01-01T12:00:00.000Z" uuid sboms format)) ∧
     (∀ oldS newS : Sbom, envelopeOk (sbomDiff "2026-01-01T12:00:00.000Z" oldS newS))) :=
  ⟨by decide, envelope_invariant_ops "2026-01-01T12:00:00.000Z" (by decide)⟩

/-! ## Claim C10 -/

/-- C10: every version_changed entry takes its purl and ecosystem from the
NEW document's record for that name (with the ecosystem derived from the
new record's purl), never from the old document's record. -/
theorem version_changed_fields_from_new (oldS newS : Sbom) (e : ComponentDiff)
    (h : e ∈ (sbomDiffData oldS newS).version_changed) :
    ∃ r o, mapGet (normalizeComponents newS) e.name = some r ∧
      mapGet (normalizeComponents oldS) e.name = some o ∧
      e.purl = r.purl ∧ e.ecosystem = r.ecosystem ∧
      e.ecosystem = extractEcosystemFromPurl r.purl := by
  obtain ⟨kv, hkv, o, hg, hv, rfl⟩ := (mem_diff_version_changed_iff oldS newS e).mp h
  have hname : kv.2.name = kv.1 := (normalize_mem_inv newS kv hkv).1
  have heco : kv.2.ecosystem = extractEcosystemFromPurl kv.2.purl :=
    (normalize_mem_inv newS kv hkv).2
  refine ⟨kv.2, o, ?_, ?_, rfl, rfl, heco⟩
  · show mapGet (normalizeComponents newS) kv.2.name = some kv.2
    rw [hname]
    exact mem_normalize_mapGet hkv
  · show mapGet (normalizeComponents oldS) kv.2.name = some o
    rw [hname]
    exact hg

/-- Witness for C10 at a concrete pair of documents whose old and new
purls differ. -/
theorem version_changed_fields_from_new_witness :
    ({ name := "a", ecosystem := some "npm", purl := some "pkg:npm/a@2",
       oldVersion := some "1", newVersion := some "2" } : ComponentDiff) ∈
      (sbomDiffData (Sbom.cdx oldPurlDoc) (Sbom.cdx newPurlDoc)).version_changed ∧
    (∃ r o, mapGet (normalizeComponents (Sbom.cdx newPurlDoc))
        ({ name := "a", ecosystem := some "npm", purl := some "pkg:npm/a@2",
           oldVersion := some "1", newVersion := some "2" } : ComponentDiff).name = some r ∧
      mapGet (normalizeComponents (Sbom.cdx oldPurlDoc))
        ({ name := "a", ecosystem := some "npm", purl := some "pkg:npm/a@2",
           oldVersion := some "1", newVersion := some "2" } : ComponentDiff).name = some o ∧
      ({ name := "a", ecosystem := some "npm", purl := some "pkg:npm/a@2",
         oldVersion := some "1", newVersion := some "2" } : ComponentDiff).purl = r.purl ∧
      ({ name := "a", ecosystem := some "npm", purl := some "pkg:npm/a@2",
         oldVersion := some "1", newVersion := some "2" } : ComponentDiff).ecosystem = r.ecosystem ∧
      ({ name := "a", ecosystem := some "npm", purl := some "pkg:npm/a@2",
         oldVersion := some "1", newVersion := some "2" } : ComponentDiff).ecosystem =
        extractEcosystemFromPurl r.purl) :=
  ⟨by decide, version_changed_fields_from_new (Sbom.cdx oldPurlDoc) (Sbom.cdx newPurlDoc) _
    (by decide)⟩

/-- Witness for C1 at a concrete one-document input. -/
theorem merge_dedup_cross_format_union_witness :
    ([Sbom.cdx exCdxDoc] ≠ []) ∧
    (∃ doc meta, sbomMerge {} "ts" "u" [Sbom.cdx exCdxDoc] .cyclonedx = .success doc meta ∧
      (outputKeys doc).Nodup ∧
      (∀ k, k ∈ outputKeys doc ↔ k ∈ inputKeys [Sbom.cdx exCdxDoc])) :=
  ⟨by simp, merge_dedup_cross_format_union {} "ts" "u" [Sbom.cdx exCdxDoc] .cyclonedx (by simp)⟩
